import Mathlib

/-!
Verification of the windowing-and-triggering core of the Dataflow Python SDK
(`google/cloud/dataflow/transforms/trigger.py`).

The development shallowly embeds the trigger subsystem:

* `PyVal` — a small dynamic value type standing in for the Python values that
  flow through the per-window state cells (payload elements, counter
  increments, booleans, lists).
* `CombineFn`, `CountCombineFn`, `anyCombineFn` — combiner objects carried by
  `CombiningValueStateTag`s.  `core.CombineFn` / `combiners.CountCombineFn`
  are not part of the sources under verification, so their behaviour is
  modelled from the specification (see the doc comments).
* `StateTag` — the tag algebra (`ValueStateTag`, `CombiningValueStateTag`,
  `ListStateTag`) with `with_prefix` (here `withPfx`).
* `InMemoryUnmergedState` — the in-memory state backend, keyed generically so
  the same definition serves both the directly-keyed backend and the
  id-keyed backend sitting under the merge adapter.
* `MergeableStateAdapter` — the window-id indirection layer.
* `TriggerFn` and a five-operation interpreter (`onElement`, `onMerge`,
  `shouldFire`, `onFire`, `reset`) over contexts (`Ctx`), mirroring
  `TriggerContext`/`NestedContext`.
* `GeneralTriggerDriver` — `process_elements` / `process_timer` / `_output`.

Python dicts are embedded as insertion-ordered association lists; mutation is
state passing; `ValueError` in `get_window` becomes `Except.error`; the
`yield`-based drivers return the list of panes they would yield.
-/

namespace Dataflow

/-- Dynamic values stored in per-window state cells: Python `None`, booleans,
integers and lists.  Payload elements, counter increments (`1`), the
`is_late` flag (`True`) and list-state cells all live here. -/
inductive PyVal where
  | none
  | bool (b : Bool)
  | int (n : ℤ)
  | list (xs : List PyVal)

mutual

/-- Decidable equality for `PyVal` (hand-rolled because of the nested
`List PyVal` occurrence). -/
def PyVal.decEq : (a b : PyVal) → Decidable (a = b)
  | .none, .none => isTrue rfl
  | .bool a, .bool b =>
      if h : a = b then isTrue (by rw [h]) else isFalse (fun hh => h (by injection hh))
  | .int a, .int b =>
      if h : a = b then isTrue (by rw [h]) else isFalse (fun hh => h (by injection hh))
  | .list xs, .list ys =>
      match PyVal.decEqList xs ys with
      | isTrue h => isTrue (by rw [h])
      | isFalse h => isFalse (fun hh => h (by injection hh))
  | .none, .bool _ => isFalse (fun h => PyVal.noConfusion h)
  | .none, .int _ => isFalse (fun h => PyVal.noConfusion h)
  | .none, .list _ => isFalse (fun h => PyVal.noConfusion h)
  | .bool _, .none => isFalse (fun h => PyVal.noConfusion h)
  | .bool _, .int _ => isFalse (fun h => PyVal.noConfusion h)
  | .bool _, .list _ => isFalse (fun h => PyVal.noConfusion h)
  | .int _, .none => isFalse (fun h => PyVal.noConfusion h)
  | .int _, .bool _ => isFalse (fun h => PyVal.noConfusion h)
  | .int _, .list _ => isFalse (fun h => PyVal.noConfusion h)
  | .list _, .none => isFalse (fun h => PyVal.noConfusion h)
  | .list _, .bool _ => isFalse (fun h => PyVal.noConfusion h)
  | .list _, .int _ => isFalse (fun h => PyVal.noConfusion h)

/-- Decidable equality for lists of `PyVal`. -/
def PyVal.decEqList : (xs ys : List PyVal) → Decidable (xs = ys)
  | [], [] => isTrue rfl
  | x :: xs, y :: ys =>
      match PyVal.decEq x y, PyVal.decEqList xs ys with
      | isTrue h1, isTrue h2 => isTrue (by rw [h1, h2])
      | isFalse h1, _ => isFalse (fun hh => h1 (by injection hh))
      | _, isFalse h2 => isFalse (fun hh => h2 (by injection hh))
  | [], _ :: _ => isFalse (fun h => List.noConfusion h)
  | _ :: _, [] => isFalse (fun h => List.noConfusion h)

end

instance : DecidableEq PyVal := PyVal.decEq

instance : Inhabited PyVal := ⟨.none⟩

instance {ε α : Type} [DecidableEq ε] [DecidableEq α] : DecidableEq (Except ε α) :=
  fun a b =>
    match a, b with
    | .ok x, .ok y =>
        if h : x = y then isTrue (by rw [h]) else isFalse (fun hh => h (by injection hh))
    | .error e, .error f =>
        if h : e = f then isTrue (by rw [h]) else isFalse (fun hh => h (by injection hh))
    | .ok _, .error _ => isFalse (fun h => Except.noConfusion h)
    | .error _, .ok _ => isFalse (fun h => Except.noConfusion h)

/-- Python truthiness for the embedded values (`if state.get_state(...)`,
`self.late and context.get_state(...)`, ...). -/
def PyVal.truthy : PyVal → Bool
  | .none => false
  | .bool b => b
  | .int n => n ≠ 0
  | .list xs => ¬xs.isEmpty

/-- The elements of a `PyVal` that is a Python list (used where the source
iterates over a state cell it knows to be a list; any non-list value is
unreachable there and yields `[]`). -/
def PyVal.elems : PyVal → List PyVal
  | .list xs => xs
  | _ => []

/-- The integer carried by a `PyVal` known to be an `int` (used where the
source compares a combined counter against an integer). -/
def PyVal.asInt : PyVal → ℤ
  | .int n => n
  | _ => 0

/-- Modelled from the spec: `core.CombineFn` (imported by `trigger.py` but not
among the sources under verification).  A combiner is the quadruple of
operations the spec's state-tag table relies on: create an empty accumulator,
fold an input in, merge accumulators and extract the output. -/
structure CombineFn where
  createAccumulator : PyVal
  addInput : PyVal → PyVal → PyVal
  mergeAccumulators : List PyVal → PyVal
  extractOutput : PyVal → PyVal

/-- Modelled from the spec: `CombineFn.apply`, the one-shot combination used
by `InMemoryUnmergedState.get_state` — fold all inputs into a fresh
accumulator and extract the output (the spec's
"`Combining(combine_fn)` ... read: `extract_output(accumulator)`"). -/
def CombineFn.applyFn (fn : CombineFn) (values : List PyVal) : PyVal :=
  fn.extractOutput (values.foldl fn.addInput fn.createAccumulator)

/-- Modelled from the spec: `combiners.CountCombineFn` (not among the sources
under verification) — the `Combining[sum]`-style counter of the spec: the
accumulator counts the inputs folded into it. -/
def CountCombineFn : CombineFn where
  createAccumulator := .int 0
  addInput := fun acc _ => match acc with | .int n => .int (n + 1) | a => a
  mergeAccumulators := fun accs => .int ((accs.map PyVal.asInt).sum)
  extractOutput := fun acc => acc

/-- Modelled from the spec: the combiner wrapped from Python's `any` by
`CombineFn.from_callable` for `AfterWatermark.LATE_TAG` — the accumulator is
the boolean "some truthy input was seen". -/
def anyCombineFn : CombineFn where
  createAccumulator := .bool false
  addInput := fun acc v => .bool (acc.truthy || v.truthy)
  mergeAccumulators := fun accs => .bool (accs.any PyVal.truthy)
  extractOutput := fun acc => acc

/-- The state-tag algebra: `ValueStateTag`, `CombiningValueStateTag` (which
carries its combiner) and `ListStateTag`.  Each carries its name string. -/
inductive StateTag where
  | valueStateTag (tag : String)
  | combiningValueStateTag (tag : String) (combine_fn : CombineFn)
  | listStateTag (tag : String)

/-- The name string of a tag (`self.tag` in the source). -/
def StateTag.tagName : StateTag → String
  | .valueStateTag t => t
  | .combiningValueStateTag t _ => t
  | .listStateTag t => t

/-- `with_prefix`: a same-variant tag whose name is `prefix + self.tag`. -/
def StateTag.withPfx (p : String) : StateTag → StateTag
  | .valueStateTag t => .valueStateTag (p ++ t)
  | .combiningValueStateTag t fn => .combiningValueStateTag (p ++ t) fn
  | .listStateTag t => .listStateTag (p ++ t)

section AList

variable {κ ν : Type} [DecidableEq κ]

/-- Association-list lookup (Python `dict.get`). -/
def alGet (k : κ) : List (κ × ν) → Option ν
  | [] => Option.none
  | (k', v) :: rest => if k' = k then some v else alGet k rest

/-- Association-list update: replace the first binding of `k` in place, or
append a new binding at the end (Python dict assignment, which preserves the
insertion order of existing keys). -/
def alSet (k : κ) (v : ν) : List (κ × ν) → List (κ × ν)
  | [] => [(k, v)]
  | (k', v') :: rest =>
      if k' = k then (k', v) :: rest else (k', v') :: alSet k v rest

/-- Association-list removal (Python `dict.pop(k, None)` / `del`). -/
def alRemove (k : κ) : List (κ × ν) → List (κ × ν)
  | [] => []
  | (k', v') :: rest => if k' = k then rest else (k', v') :: alRemove k rest

end AList

/-- An interval window: an event-time interval with a start and an end
(`window.end` is `wend` here, `end` being a Lean keyword).  Equality is by
bounds. -/
structure IntervalWindow where
  start : ℤ
  wend : ℤ
deriving DecidableEq

/-- The watermark values the driver passes to triggers: `float('-inf')` on
the element path, a finite timer timestamp on the timer path. -/
inductive Watermark where
  | neginf
  | fin (t : ℤ)
deriving DecidableEq

/-- `watermark >= window.end`, the comparison `DefaultTrigger` and
`AfterWatermark` perform; `-inf` is below every window end. -/
def Watermark.geEnd : Watermark → ℤ → Bool
  | .neginf, _ => false
  | .fin t, e => decide (e ≤ t)

/-- `InMemoryUnmergedState`: the in-memory state backend.  `κ` is the window
key (the driver hands the adapter's internal integer ids to it, tests hand it
windows), `γ` the type stored in the global-state area.  `timers` is
`window -> tag -> timestamp`, `state` is `window -> tag-name -> cell`, both
insertion-ordered like Python dicts.  An absent cell reads as the
`defaultdict(list)` default, the empty Python list (`PyVal.list []`).
`defensive_copy` deep-copies values on write; over pure values it is the
identity and is not represented. -/
structure InMemoryUnmergedState (κ γ : Type) where
  timers : List (κ × List (String × ℤ)) := []
  state : List (κ × List (String × PyVal)) := []
  globalState : List (String × γ) := []
deriving DecidableEq

namespace InMemoryUnmergedState

variable {κ γ : Type} [DecidableEq κ]

/-- `set_global_state(tag, value)` (the source asserts the tag is a
`ValueStateTag` and keys by its name). -/
def set_global_state (s : InMemoryUnmergedState κ γ) (tag : StateTag) (value : γ) :
    InMemoryUnmergedState κ γ :=
  { s with globalState := alSet tag.tagName value s.globalState }

/-- `get_global_state(tag, default)`. -/
def get_global_state (s : InMemoryUnmergedState κ γ) (tag : StateTag) (default : γ) : γ :=
  (alGet tag.tagName s.globalState).getD default

/-- `set_timer(window, tag, timestamp)`: overwrite the `(window, tag)` slot. -/
def set_timer (s : InMemoryUnmergedState κ γ) (window : κ) (tag : String) (timestamp : ℤ) :
    InMemoryUnmergedState κ γ :=
  { s with timers := alSet window (alSet tag timestamp ((alGet window s.timers).getD [])) s.timers }

/-- `clear_timer(window, tag)`: `self.timers[window].pop(tag, None)` (the
`defaultdict` access materialises the window's entry, as does `alSet`). -/
def clear_timer (s : InMemoryUnmergedState κ γ) (window : κ) (tag : String) :
    InMemoryUnmergedState κ γ :=
  { s with timers := alSet window (alRemove tag ((alGet window s.timers).getD [])) s.timers }

/-- `get_window(timer_id)`: the in-memory backend uses windows themselves as
timer ids. -/
def get_window (_s : InMemoryUnmergedState κ γ) (timer_id : κ) : κ := timer_id

/-- The cell stored for `(window, tag-name)`; absent cells read as the
`defaultdict(list)` default `[]`. -/
def cellOf (s : InMemoryUnmergedState κ γ) (window : κ) (tagName : String) : PyVal :=
  (alGet tagName ((alGet window s.state).getD [])).getD (.list [])

/-- `add_state(window, tag, value)`: `Value` overwrites, `Combining` and
`List` append to the cell (a non-list cell under an appending tag would raise
in Python and is left unchanged here; it is unreachable in this
development). -/
def add_state (s : InMemoryUnmergedState κ γ) (window : κ) (tag : StateTag) (value : PyVal) :
    InMemoryUnmergedState κ γ :=
  let cell := s.cellOf window tag.tagName
  let newCell : PyVal :=
    match tag with
    | .valueStateTag _ => value
    | .combiningValueStateTag _ _ =>
        match cell with | .list xs => .list (xs ++ [value]) | c => c
    | .listStateTag _ =>
        match cell with | .list xs => .list (xs ++ [value]) | c => c
  { s with state :=
      alSet window (alSet tag.tagName newCell ((alGet window s.state).getD [])) s.state }

/-- `get_state(window, tag)`: `Value` returns the cell as stored (the
`defaultdict` default `[]` if never written), `Combining` applies the
combiner to the appended inputs, `List` returns the cell. -/
def get_state (s : InMemoryUnmergedState κ γ) (window : κ) (tag : StateTag) : PyVal :=
  let values := s.cellOf window tag.tagName
  match tag with
  | .valueStateTag _ => values
  | .combiningValueStateTag _ fn => fn.applyFn values.elems
  | .listStateTag _ => values

/-- `clear_state(window, tag_or_None)`: with `None` drop all of the window's
state (`self.state.pop(window, None)`), otherwise drop the one cell
(`self.state[window].pop(tag.tag, None)`, which materialises the window's
entry). -/
def clear_state (s : InMemoryUnmergedState κ γ) (window : κ) (tag : Option StateTag) :
    InMemoryUnmergedState κ γ :=
  match tag with
  | Option.none => { s with state := alRemove window s.state }
  | some t =>
      { s with state :=
          alSet window (alRemove t.tagName ((alGet window s.state).getD [])) s.state }

end InMemoryUnmergedState

/-- The window-id map the merge adapter keeps in global state: each window
maps to the ordered list of internal ids whose raw state it owns. -/
abbrev WindowIdMap := List (IntervalWindow × List ℕ)

/-- The raw backend under the merge adapter: keyed by internal ids, global
area holding the window-id map. -/
abbrev RawState := InMemoryUnmergedState ℕ WindowIdMap

/-- `MergeableStateAdapter.WINDOW_IDS`. -/
def WINDOW_IDS : StateTag := .valueStateTag "window_ids"

/-- `MergeableStateAdapter`: wraps the raw backend, tracking merged windows
through `window_ids`; `counter` is the per-instance fresh-id counter
(`None` until the first allocation of the instance). -/
structure MergeableStateAdapter where
  raw_state : RawState
  window_ids : WindowIdMap
  counter : Option ℕ
deriving DecidableEq

namespace MergeableStateAdapter

/-- `__init__`: load the window-id map from the raw backend's global state
(default `{}`), with a fresh (`None`) counter. -/
def init (raw : RawState) : MergeableStateAdapter :=
  { raw_state := raw
    window_ids := raw.get_global_state WINDOW_IDS []
    counter := Option.none }

/-- `_persist_window_ids`. -/
def persistWindowIds (a : MergeableStateAdapter) : MergeableStateAdapter :=
  { a with raw_state := a.raw_state.set_global_state WINDOW_IDS a.window_ids }

/-- The largest id present in the map (`max(k for ids in ... for k in ids)`;
Python would raise on an empty map, which the source guards against). -/
def maxIdOf (m : WindowIdMap) : ℕ :=
  ((m.map Prod.snd).flatten).foldl max 0

/-- `_get_next_counter`: start from 0 on an empty map, resume from the
largest existing id when the instance has not allocated yet, then
increment. -/
def getNextCounter (a : MergeableStateAdapter) : ℕ × MergeableStateAdapter :=
  let c0 : ℕ :=
    if a.window_ids.isEmpty then 0
    else match a.counter with
      | Option.none => maxIdOf a.window_ids
      | some c => c
  (c0 + 1, { a with counter := some (c0 + 1) })

/-- `_get_id(window)`: the first id of a known window, else a freshly
allocated singleton id list, persisted. -/
def getId (a : MergeableStateAdapter) (window : IntervalWindow) : ℕ × MergeableStateAdapter :=
  match alGet window a.window_ids with
  | some ids => (ids.headI, a)
  | Option.none =>
      let r := a.getNextCounter
      let a'' := { r.2 with window_ids := alSet window [r.1] r.2.window_ids }
      (r.1, a''.persistWindowIds)

/-- `_get_ids(window)`. -/
def getIds (a : MergeableStateAdapter) (window : IntervalWindow) : List ℕ :=
  (alGet window a.window_ids).getD []

/-- `set_timer(window, tag, timestamp)`: resolve to the first id and
delegate. -/
def set_timer (a : MergeableStateAdapter) (window : IntervalWindow) (tag : String)
    (timestamp : ℤ) : MergeableStateAdapter :=
  let r := a.getId window
  { r.2 with raw_state := r.2.raw_state.set_timer r.1 tag timestamp }

/-- `clear_timer(window, timer)`: clear on every id of the window. -/
def clear_timer (a : MergeableStateAdapter) (window : IntervalWindow) (tag : String) :
    MergeableStateAdapter :=
  (a.getIds window).foldl
    (fun acc wid => { acc with raw_state := acc.raw_state.clear_timer wid tag }) a

/-- `add_state(window, tag, value)`: rejected for `ValueStateTag` (Python
raises `ValueError`; never reached in this development, the adapter state is
returned unchanged), otherwise delegated to the window's first id. -/
def add_state (a : MergeableStateAdapter) (window : IntervalWindow) (tag : StateTag)
    (value : PyVal) : MergeableStateAdapter :=
  match tag with
  | .valueStateTag _ => a
  | _ =>
      let r := a.getId window
      { r.2 with raw_state := r.2.raw_state.add_state r.1 tag value }

/-- `get_state(window, tag)`: read every id; `Value` is rejected (Python
raises `ValueError`; unreachable here, `PyVal.none` is returned),
`Combining` passes a single raw value straight to `extract_output` and merges
first when there are several, `List` concatenates in id order. -/
def get_state (a : MergeableStateAdapter) (window : IntervalWindow) (tag : StateTag) : PyVal :=
  let values := (a.getIds window).map (fun wid => a.raw_state.get_state wid tag)
  match tag with
  | .valueStateTag _ => PyVal.none
  | .combiningValueStateTag _ fn =>
      if values.isEmpty then fn.extractOutput fn.createAccumulator
      else if values.length = 1 then fn.extractOutput values.headI
      else fn.extractOutput (fn.mergeAccumulators values)
  | .listStateTag _ => .list ((values.map PyVal.elems).flatten)

/-- `clear_state(window, tag_or_None)`: clear on every id; clearing with
`None` additionally removes the window from the id map and persists. -/
def clear_state (a : MergeableStateAdapter) (window : IntervalWindow) (tag : Option StateTag) :
    MergeableStateAdapter :=
  let a' := (a.getIds window).foldl
    (fun acc wid => { acc with raw_state := acc.raw_state.clear_state wid tag }) a
  match tag with
  | Option.none =>
      ({ a' with window_ids := alRemove window a'.window_ids }).persistWindowIds
  | some _ => a'

/-- The id map after one `merge` move: the destination's id list (created
empty if absent) extended with the source's ids, the source entry removed. -/
def mergeMoveMap (m : WindowIdMap) (window merge_result : IntervalWindow)
    (srcIds : List ℕ) : WindowIdMap :=
  alRemove window
    (alSet merge_result (((alGet merge_result m).getD []) ++ srcIds) m)

/-- `merge(to_be_merged, merge_result)`: move each non-destination source
window's whole id list onto the destination and drop the source entry,
persisting after each move (the source's `for` loop, as recursion). -/
def merge (a : MergeableStateAdapter) (to_be_merged : List IntervalWindow)
    (merge_result : IntervalWindow) : MergeableStateAdapter :=
  match to_be_merged with
  | [] => a
  | window :: rest =>
      let a' :=
        if window ≠ merge_result then
          match alGet window a.window_ids with
          | some srcIds =>
              MergeableStateAdapter.persistWindowIds
                { a with
                    window_ids := mergeMoveMap a.window_ids window merge_result srcIds }
          | Option.none => a
        else a
      a'.merge rest merge_result

/-- `known_windows()`. -/
def known_windows (a : MergeableStateAdapter) : List IntervalWindow :=
  a.window_ids.map Prod.fst

/-- `get_window(timer_id)`: the window whose id list contains the timer id;
raises `ValueError` (here `Except.error`) when there is none. -/
def get_window (a : MergeableStateAdapter) (timer_id : ℕ) : Except String IntervalWindow :=
  match a.window_ids.find? (fun entry => timer_id ∈ entry.2) with
  | some entry => .ok entry.1
  | Option.none => .error ("No window for " ++ toString timer_id)

end MergeableStateAdapter

/-- The window-keyed state interface a context forwards to (the subset of
`SimpleState` that `TriggerContext` uses).  Keeping it abstract lets the
trigger interpreter run over any backend, as the Python dispatch does; the
driver instantiates it with the merge adapter. -/
structure SimpleStateOps (σ : Type) where
  setTimer : σ → IntervalWindow → String → ℤ → σ
  clearTimer : σ → IntervalWindow → String → σ
  addState : σ → IntervalWindow → StateTag → PyVal → σ
  getState : σ → IntervalWindow → StateTag → PyVal
  clearState : σ → IntervalWindow → StateTag → σ

/-- Context objects handed to triggers: `TriggerContext(outer, window)` binds
a window over the backend (`SimpleState.at`), `NestedContext(outer, prefix)`
namespaces every operation of an outer context. -/
inductive Ctx where
  | trigger (window : IntervalWindow)
  | nested (outer : Ctx) (pre : String)

namespace Ctx

variable {σ : Type}

/-- `set_timer(tag, timestamp)`: `TriggerContext` targets its window,
`NestedContext` prefixes the timer tag string. -/
def set_timer (ops : SimpleStateOps σ) : Ctx → String → ℤ → σ → σ
  | .trigger w, tag, ts, s => ops.setTimer s w tag ts
  | .nested c p, tag, ts, s => Ctx.set_timer ops c (p ++ tag) ts s

/-- `clear_timer(tag)`. -/
def clear_timer (ops : SimpleStateOps σ) : Ctx → String → σ → σ
  | .trigger w, tag, s => ops.clearTimer s w tag
  | .nested c p, tag, s => Ctx.clear_timer ops c (p ++ tag) s

/-- `add_state(tag, value)`: `NestedContext` rewrites the tag with
`tag.with_prefix(prefix)`. -/
def add_state (ops : SimpleStateOps σ) : Ctx → StateTag → PyVal → σ → σ
  | .trigger w, tag, v, s => ops.addState s w tag v
  | .nested c p, tag, v, s => Ctx.add_state ops c (tag.withPfx p) v s

/-- `get_state(tag)`. -/
def get_state (ops : SimpleStateOps σ) : Ctx → StateTag → σ → PyVal
  | .trigger w, tag, s => ops.getState s w tag
  | .nested c p, tag, s => Ctx.get_state ops c (tag.withPfx p) s

/-- `clear_state(tag)`. -/
def clear_state (ops : SimpleStateOps σ) : Ctx → StateTag → σ → σ
  | .trigger w, tag, s => ops.clearState s w tag
  | .nested c p, tag, s => Ctx.clear_state ops c (tag.withPfx p) s

end Ctx

/-- `AfterCount.COUNT_TAG`. -/
def COUNT_TAG : StateTag := .combiningValueStateTag "count" CountCombineFn

/-- `AfterWatermark.LATE_TAG`. -/
def LATE_TAG : StateTag := .combiningValueStateTag "is_late" anyCombineFn

/-- The trigger functions this development interprets: `DefaultTrigger`,
`AfterWatermark(early, late)` (the constructor having already wrapped any
subtriggers in `Repeatedly`, see `AfterWatermarkT`), `AfterCount(count)` and
`Repeatedly(underlying)`. -/
inductive TriggerFn where
  | defaultTrigger
  | afterWatermark (early late : Option TriggerFn)
  | afterCount (count : ℤ)
  | repeatedly (underlying : TriggerFn)

/-- `AfterWatermark.__init__`: `self.early = Repeatedly(early) if early else
None`, likewise for `late`. -/
def AfterWatermarkT (early late : Option TriggerFn) : TriggerFn :=
  .afterWatermark (early.map .repeatedly) (late.map .repeatedly)

/-- `AfterWatermark.is_late(context)`: `self.late and
context.get_state(LATE_TAG)`. -/
def isLateCtx {σ : Type} (ops : SimpleStateOps σ) (late : Option TriggerFn) (c : Ctx)
    (s : σ) : Bool :=
  late.isSome && (Ctx.get_state ops c LATE_TAG s).truthy

mutual

/-- `on_element(element, window, context)` of each trigger. -/
def onElement {σ : Type} (ops : SimpleStateOps σ) :
    TriggerFn → PyVal → IntervalWindow → Ctx → σ → σ
  | .defaultTrigger, _, window, c, s => Ctx.set_timer ops c "" window.wend s
  | .afterWatermark early late, element, window, c, s =>
      if isLateCtx ops late c s then
        match late with
        | some l => onElement ops l element window (.nested c "late") s
        | Option.none => s
      else
        let s' := Ctx.set_timer ops c "" window.wend s
        match early with
        | some e => onElement ops e element window (.nested c "early") s'
        | Option.none => s'
  | .afterCount _, _, _, c, s => Ctx.add_state ops c COUNT_TAG (.int 1) s
  | .repeatedly t, element, window, c, s => onElement ops t element window c s

/-- `on_merge(to_be_merged, merge_result, context)` of each trigger. -/
def onMerge {σ : Type} (ops : SimpleStateOps σ) :
    TriggerFn → List IntervalWindow → IntervalWindow → Ctx → σ → σ
  | .defaultTrigger, to_be_merged, merge_result, c, s =>
      to_be_merged.foldl
        (fun acc w => if w.wend ≠ merge_result.wend then Ctx.clear_timer ops c "" acc else acc) s
  | .afterWatermark early late, to_be_merged, merge_result, c, s =>
      if isLateCtx ops late c s then
        match late with
        | some l => onMerge ops l to_be_merged merge_result (.nested c "late") s
        | Option.none => s
      else
        let s' := to_be_merged.foldl
          (fun acc w =>
            if w.wend ≠ merge_result.wend then Ctx.clear_timer ops c "" acc else acc) s
        match early with
        | some e => onMerge ops e to_be_merged merge_result (.nested c "early") s'
        | Option.none => s'
  | .afterCount _, _, _, _, s => s
  | .repeatedly t, to_be_merged, merge_result, c, s =>
      onMerge ops t to_be_merged merge_result c s

/-- `should_fire(watermark, window, context)` of each trigger (a pure
predicate: no library trigger writes state here). -/
def shouldFire {σ : Type} (ops : SimpleStateOps σ) :
    TriggerFn → Watermark → IntervalWindow → Ctx → σ → Bool
  | .defaultTrigger, watermark, window, _, _ => watermark.geEnd window.wend
  | .afterWatermark early late, watermark, window, c, s =>
      if isLateCtx ops late c s then
        match late with
        | some l => shouldFire ops l watermark window (.nested c "late") s
        | Option.none => false
      else if watermark.geEnd window.wend then true
      else
        match early with
        | some e => shouldFire ops e watermark window (.nested c "early") s
        | Option.none => false
  | .afterCount count, _, _, c, s =>
      decide (count ≤ (Ctx.get_state ops c COUNT_TAG s).asInt)
  | .repeatedly t, watermark, window, c, s => shouldFire ops t watermark window c s

/-- `on_fire(watermark, window, context)` of each trigger: the Boolean is
the "trigger is now finished" result (`AfterWatermark`'s early path and the
pre-end fall-through return Python `None`, i.e. falsy). -/
def onFire {σ : Type} (ops : SimpleStateOps σ) :
    TriggerFn → Watermark → IntervalWindow → Ctx → σ → Bool × σ
  | .defaultTrigger, _, _, _, s => (false, s)
  | .afterWatermark early late, watermark, window, c, s =>
      if isLateCtx ops late c s then
        match late with
        | some l => onFire ops l watermark window (.nested c "late") s
        | Option.none => (false, s)
      else if watermark.geEnd window.wend then
        (late.isNone, Ctx.add_state ops c LATE_TAG (.bool true) s)
      else
        match early with
        | some e => (false, (onFire ops e watermark window (.nested c "early") s).2)
        | Option.none => (false, s)
  | .afterCount _, _, _, _, s => (true, s)
  | .repeatedly t, watermark, window, c, s =>
      let r := onFire ops t watermark window c s
      if r.1 then (false, resetT ops t window c r.2) else (false, r.2)

/-- `reset(window, context)` of each trigger. -/
def resetT {σ : Type} (ops : SimpleStateOps σ) : TriggerFn → IntervalWindow → Ctx → σ → σ
  | .defaultTrigger, _, c, s => Ctx.clear_timer ops c "" s
  | .afterWatermark early late, window, c, s =>
      let s1 := if late.isSome then Ctx.clear_state ops c LATE_TAG s else s
      let s2 :=
        match early with
        | some e => resetT ops e window (.nested c "early") s1
        | Option.none => s1
      match late with
      | some l => resetT ops l window (.nested c "late") s2
      | Option.none => s2
  | .afterCount _, _, c, s => Ctx.clear_state ops c COUNT_TAG s
  | .repeatedly t, window, c, s => resetT ops t window c s

end

/-- `AccumulationMode.DISCARDING` / `ACCUMULATING`. -/
inductive AccumulationMode where
  | discarding
  | accumulating
deriving DecidableEq

/-- `GeneralTriggerDriver.ELEMENTS`. -/
def ELEMENTS : StateTag := .listStateTag "elements"

/-- `GeneralTriggerDriver.TOMBSTONE`. -/
def TOMBSTONE : StateTag := .combiningValueStateTag "tombstone" CountCombineFn

/-- The merge adapter viewed through the context-facing state interface
(`state.at(window)` hands triggers a `TriggerContext` over this object). -/
def adapterOps : SimpleStateOps MergeableStateAdapter where
  setTimer := fun s w tag ts => s.set_timer w tag ts
  clearTimer := fun s w tag => s.clear_timer w tag
  addState := fun s w tag v => s.add_state w tag v
  getState := fun s w tag => s.get_state w tag
  clearState := fun s w tag => s.clear_state w (some tag)

/-- A pane as yielded by the drivers: `(window, values)` where `values` is
the Python list read from the `ELEMENTS` tag. -/
abbrev Pane := IntervalWindow × PyVal

/-- `GeneralTriggerDriver`: holds the windowing's `window_fn` (represented by
the sequence of `merge(to_be_merged, merge_result)` callbacks its `merge`
issues on a given window universe), the trigger and the accumulation mode.
`self.is_merging` is always `True` in the source's `__init__`, so the
merging paths below are taken unconditionally. -/
structure GeneralTriggerDriver where
  window_fn : List IntervalWindow → List (List IntervalWindow × IntervalWindow)
  trigger_fn : TriggerFn
  accumulation_mode : AccumulationMode

/-- A non-merging `WindowFn` (fixed, sliding or global windows): its `merge`
issues no callbacks. -/
def noMergeWindowFn : List IntervalWindow → List (List IntervalWindow × IntervalWindow) :=
  fun _ => []

/-- Bucket the incoming windowed values by the windows they occupy
(`windows_to_elements`, a `defaultdict(list)` filled in arrival order). -/
def windowsToElements (windowed_values : List (PyVal × List IntervalWindow)) :
    List (IntervalWindow × List PyVal) :=
  windowed_values.foldl
    (fun acc wv =>
      wv.2.foldl
        (fun acc2 window => alSet window (((alGet window acc2).getD []) ++ [wv.1]) acc2)
        acc)
    []

/-- Chase the `merged_away` redirect map to a fixed point (`while window in
merged_away`).  The Python loop terminates because the driver's redirect map
is acyclic; a fuel of the map's size bounds any acyclic chain. -/
def chaseMergedAway (m : List (IntervalWindow × IntervalWindow)) :
    ℕ → IntervalWindow → IntervalWindow
  | 0, w => w
  | fuel + 1, w =>
      match alGet w m with
      | some w' => chaseMergedAway m fuel w'
      | Option.none => w

namespace GeneralTriggerDriver

/-- `_output(window, finished, state)`: read the `ELEMENTS` pane contents;
when finished clear all of the window's state and set the `TOMBSTONE`
counter; otherwise in `DISCARDING` mode clear just the elements. -/
def outputPane (d : GeneralTriggerDriver) (window : IntervalWindow) (finished : Bool)
    (st : MergeableStateAdapter) : Pane × MergeableStateAdapter :=
  let values := st.get_state window ELEMENTS
  let st' :=
    if finished then
      (st.clear_state window Option.none).add_state window TOMBSTONE (.int 1)
    else if d.accumulation_mode = .discarding then
      st.clear_state window (some ELEMENTS)
    else st
  ((window, values), st')

/-- One iteration of `process_elements`' per-window loop: skip tombstoned
windows, append each value to `ELEMENTS` and feed it to the trigger, then
evaluate `should_fire` with watermark `-inf` and maybe fire. -/
def elementBucketStep (d : GeneralTriggerDriver)
    (acc : List Pane × MergeableStateAdapter) (entry : IntervalWindow × List PyVal) :
    List Pane × MergeableStateAdapter :=
  let window := entry.1
  if (acc.2.get_state window TOMBSTONE).truthy then acc
  else
    let context := Ctx.trigger window
    let st1 := entry.2.foldl
      (fun s v => onElement adapterOps d.trigger_fn v window context
        (s.add_state window ELEMENTS v))
      acc.2
    if shouldFire adapterOps d.trigger_fn Watermark.neginf window context st1 then
      let r := onFire adapterOps d.trigger_fn Watermark.neginf window context st1
      let pr := d.outputPane window r.1 r.2
      (acc.1 ++ [pr.1], pr.2)
    else (acc.1, st1)

/-- The merging block of `process_elements`: when the batch brings windows
the state does not know yet, run `window_fn.merge` over the union universe;
each reported `merge(to_be_merged, merge_result)` records the redirects,
merges the adapter state and calls `trigger_fn.on_merge` under the
destination's context; finally the buckets are rewritten onto the surviving
windows by chasing the redirect map. -/
def mergePhase (d : GeneralTriggerDriver) (st : MergeableStateAdapter)
    (w2e : List (IntervalWindow × List PyVal)) :
    MergeableStateAdapter × List (IntervalWindow × List PyVal) :=
  let old_windows := st.known_windows
  if (w2e.map Prod.fst).all (fun w => old_windows.contains w) then (st, w2e)
  else
    let all_windows :=
      old_windows ++ (w2e.map Prod.fst).filter (fun w => ¬old_windows.contains w)
    let step := (d.window_fn all_windows).foldl
      (fun (acc : List (IntervalWindow × IntervalWindow) × MergeableStateAdapter) op =>
        let ma := op.1.foldl (fun m w => if w ≠ op.2 then alSet w op.2 m else m) acc.1
        let st1 := acc.2.merge op.1 op.2
        (ma, onMerge adapterOps d.trigger_fn op.1 op.2 (.trigger op.2) st1))
      ([], st)
    let w2e' := w2e.foldl
      (fun acc entry =>
        let target := chaseMergedAway step.1 step.1.length entry.1
        alSet target (((alGet target acc).getD []) ++ entry.2) acc)
      []
    (step.2, w2e')

/-- `process_elements(windowed_values, state)`: wrap the raw state in the
merge adapter (`is_merging` is always true), bucket the values, handle
merging, then run the per-window element-adding/firing loop, returning the
yielded panes and the mutated raw state. -/
def process_elements (d : GeneralTriggerDriver)
    (windowed_values : List (PyVal × List IntervalWindow)) (raw : RawState) :
    List Pane × RawState :=
  let st := MergeableStateAdapter.init raw
  let mp := d.mergePhase st (windowsToElements windowed_values)
  let r := mp.2.foldl (fun acc entry => d.elementBucketStep acc entry) ([], mp.1)
  (r.1, r.2.raw_state)

/-- `process_timer(timer_id, timestamp, unused_tag, state)`: wrap the state,
resolve the window (the adapter's `get_window` raises `ValueError` for an
unknown id, which propagates), return silently when tombstoned or no longer
known, else consult `should_fire` with the timer's timestamp and maybe
fire. -/
def process_timer (d : GeneralTriggerDriver) (timer_id : ℕ) (timestamp : ℤ)
    (raw : RawState) : Except String (List Pane × RawState) :=
  let st := MergeableStateAdapter.init raw
  match st.get_window timer_id with
  | .error e => .error e
  | .ok window =>
      if (st.get_state window TOMBSTONE).truthy then .ok ([], st.raw_state)
      else if st.known_windows.contains window then
        let context := Ctx.trigger window
        if shouldFire adapterOps d.trigger_fn (.fin timestamp) window context st then
          let r := onFire adapterOps d.trigger_fn (.fin timestamp) window context st
          let pr := d.outputPane window r.1 r.2
          .ok ([pr.1], pr.2.raw_state)
        else .ok ([], st.raw_state)
      else .ok ([], st.raw_state)

end GeneralTriggerDriver

/-- The empty in-memory raw state a run starts from. -/
def emptyRaw : RawState := {}

/-- A call into the general driver during a single-window run against window
`w`: either a bundle of values for `w` or a firing of `w`'s timer (internal
id 1, the only id such runs allocate). -/
inductive DriverCall where
  | elemsOf (vs : List PyVal)
  | timerAt (ts : ℤ)

/-- Run one `DriverCall` for window `w`. -/
def runCall (d : GeneralTriggerDriver) (w : IntervalWindow) (raw : RawState) :
    DriverCall → Except String (List Pane × RawState)
  | .elemsOf vs => .ok (d.process_elements (vs.map fun v => (v, [w])) raw)
  | .timerAt ts => d.process_timer 1 ts raw

/-- Run a sequence of driver calls for window `w`, concatenating the panes. -/
def runCalls (d : GeneralTriggerDriver) (w : IntervalWindow) (raw : RawState) :
    List DriverCall → Except String (List Pane × RawState)
  | [] => .ok ([], raw)
  | c :: rest =>
      match runCall d w raw c with
      | .error e => .error e
      | .ok r =>
          match runCalls d w r.2 rest with
          | .error e => .error e
          | .ok r' => .ok (r.1 ++ r'.1, r'.2)

/-- Run a sequence of element bundles (no timers) for window `w`. -/
def runBatches (d : GeneralTriggerDriver) (w : IntervalWindow) (raw : RawState) :
    List (List PyVal) → List Pane × RawState
  | [] => ([], raw)
  | batch :: rest =>
      let r := d.process_elements (batch.map fun v => (v, [w])) raw
      let r' := runBatches d w r.2 rest
      (r.1 ++ r'.1, r'.2)

/-- The panes of a run of driver calls. -/
def runCallsPanes (d : GeneralTriggerDriver) (w : IntervalWindow) (raw : RawState)
    (calls : List DriverCall) : Except String (List Pane) :=
  (runCalls d w raw calls).map Prod.fst

/-- The state of a window between driver invocations, as the driver itself
would read it on its next call (through a freshly wrapped merge adapter). -/
def adapterGet (s : RawState) (w : IntervalWindow) (tag : StateTag) : PyVal :=
  (MergeableStateAdapter.init s).get_state w tag

/-- The bound window of a context chain (`TriggerContext._window`). -/
def Ctx.window : Ctx → IntervalWindow
  | .trigger w => w
  | .nested c _ => c.window

/-- The state tag a context chain ultimately hands to the backend: each
`NestedContext` layer applies `with_prefix`. -/
def Ctx.resolve : Ctx → StateTag → StateTag
  | .trigger _, tag => tag
  | .nested c p, tag => c.resolve (tag.withPfx p)

/-- The timer tag a context chain ultimately hands to the backend. -/
def Ctx.resolveTimer : Ctx → String → String
  | .trigger _, tag => tag
  | .nested c p, tag => c.resolveTimer (p ++ tag)

/-- Frame of a trigger-side state operation on a single-window adapter whose
only internal id is 1: the id map, counter and persisted global state are
untouched, and the driver-owned `elements` / `tombstone` cells of the one
raw entry are preserved (triggers write only their own combining tags, whose
names end in `count` / `is_late`). -/
def TFrame (st st' : MergeableStateAdapter) : Prop :=
  st'.window_ids = st.window_ids ∧
  st'.counter = st.counter ∧
  st'.raw_state.globalState = st.raw_state.globalState ∧
  ∀ cm, st.raw_state.state = [(1, cm)] →
    ∃ cm', st'.raw_state.state = [(1, cm')] ∧
      alGet "elements" cm' = alGet "elements" cm ∧
      alGet "tombstone" cm' = alGet "tombstone" cm ∧
      (cm.Pairwise (fun e1 e2 => e1.1 ≠ e2.1) → cm'.Pairwise (fun e1 e2 => e1.1 ≠ e2.1))

/-- The cell stored under a tag name in a window's cell map, with the
`defaultdict(list)` default. -/
def cellIn (cm : List (String × PyVal)) (name : String) : PyVal :=
  (alGet name cm).getD (.list [])

/-- A single-window merge adapter mid-call: window `w` owns the single
internal id 1 (persisted in global state), the one raw entry's `elements`
cell holds `pending`, its `tombstone` cell is empty, and its tag names are
unduplicated; the trigger's own cells are unconstrained. -/
def SWAdapter (w : IntervalWindow) (st : MergeableStateAdapter)
    (pending : List PyVal) : Prop :=
  st.window_ids = [(w, [1])] ∧
  (alGet "window_ids" st.raw_state.globalState).getD [] = [(w, [1])] ∧
  ∃ cm, st.raw_state.state = [(1, cm)] ∧
    cm.Pairwise (fun e1 e2 => e1.1 ≠ e2.1) ∧
    cellIn cm "elements" = .list pending ∧
    cellIn cm "tombstone" = .list []

/-- A single-window merge adapter after a finishing firing: all of `w`'s
state has been cleared and replaced by the `TOMBSTONE` counter on the
freshly reallocated id 1. -/
def TombAdapter (w : IntervalWindow) (st : MergeableStateAdapter) : Prop :=
  st.window_ids = [(w, [1])] ∧
  (alGet "window_ids" st.raw_state.globalState).getD [] = [(w, [1])] ∧
  st.raw_state.state = [(1, [("tombstone", .list [.int 1])])]

/-- A single-window raw state between calls, with `pending` elements. -/
def SWActive (w : IntervalWindow) (s : RawState) (pending : List PyVal) : Prop :=
  SWAdapter w (MergeableStateAdapter.init s) pending

/-- A single-window raw state between calls after a finishing firing. -/
def SWTomb (w : IntervalWindow) (s : RawState) : Prop :=
  TombAdapter w (MergeableStateAdapter.init s)

/-- A single-window raw state reachable between driver calls before any
finishing firing: the empty initial state, or a live single-window state
with `pending` elements. -/
def SWRun (w : IntervalWindow) (s : RawState) (pending : List PyVal) : Prop :=
  (s = emptyRaw ∧ pending = []) ∨ SWActive w s pending

/-- Well-formedness of the merge adapter's window-id map: windows are keyed
at most once, id lists are pairwise disjoint and nonempty. -/
def WindowIdMapWF (m : WindowIdMap) : Prop :=
  m.Pairwise (fun e1 e2 => e1.1 ≠ e2.1 ∧ ∀ i ∈ e1.2, i ∉ e2.2) ∧
  ∀ e ∈ m, e.2 ≠ []

/-- Well-formedness of a merge adapter: the id map is well formed and the
instance counter, once set, bounds every id in the map. -/
def AdapterWF (a : MergeableStateAdapter) : Prop :=
  WindowIdMapWF a.window_ids ∧
  ∀ c, a.counter = some c → ∀ e ∈ a.window_ids, ∀ i ∈ e.2, i ≤ c

/-- Specification of the panes an `AfterCount(n)` single-window run emits
(spec reading of the element path): the counter accumulates across bundles;
the first bundle evaluation whose cumulative count reaches `n` emits the one
pane, carrying everything accumulated, and finishes the window. -/
def acPanesSpec (n : ℕ) (w : IntervalWindow) : List PyVal → List (List PyVal) → List Pane
  | _, [] => []
  | acc, vs :: rest =>
      if vs.isEmpty then acPanesSpec n w acc rest
      else if n ≤ (acc ++ vs).length then [(w, .list (acc ++ vs))]
      else acPanesSpec n w (acc ++ vs) rest

/-- Specification of the panes an `AfterWatermark()` (no early/late)
single-window run emits: elements accumulate and never fire; the first timer
whose timestamp reaches the window end emits the one pane and finishes. -/
def awPanesSpec (e : ℤ) (w : IntervalWindow) : List PyVal → List DriverCall → List Pane
  | _, [] => []
  | acc, .elemsOf vs :: rest => awPanesSpec e w (acc ++ vs) rest
  | acc, .timerAt ts :: rest =>
      if e ≤ ts then [(w, .list acc)] else awPanesSpec e w acc rest

/-- Concrete single-window state of an `AfterCount` run after `es` elements
and no firing. -/
def acActiveRaw (w : IntervalWindow) (es : List PyVal) : RawState :=
  { timers := []
    state := [(1, [("elements", .list es), ("count", .list (es.map fun _ => .int 1))])]
    globalState := [("window_ids", [(w, [1])])] }

/-- Concrete tombstoned single-window state (timer table `tm` left as is:
`_output` clears state, not timers). -/
def tombRaw (w : IntervalWindow) (tm : List (ℕ × List (String × ℤ))) : RawState :=
  { timers := tm
    state := [(1, [("tombstone", .list [.int 1])])]
    globalState := [("window_ids", [(w, [1])])] }

/-- Concrete single-window state of an `AfterWatermark()` run after `es`
elements: end-of-window timer armed, elements pending. -/
def awActiveRaw (w : IntervalWindow) (es : List PyVal) : RawState :=
  { timers := [(1, [("", w.wend)])]
    state := [(1, [("elements", .list es)])]
    globalState := [("window_ids", [(w, [1])])] }

/-- The usual concrete window of the witnesses. -/
def sampleW : IntervalWindow := ⟨0, 60⟩

/-- `AfterCount(2)` under `DISCARDING`, non-merging windows. -/
def acd2 : GeneralTriggerDriver := ⟨noMergeWindowFn, .afterCount 2, .discarding⟩

/-- `AfterWatermark()` under `DISCARDING`, non-merging windows. -/
def awd : GeneralTriggerDriver :=
  ⟨noMergeWindowFn, AfterWatermarkT Option.none Option.none, .discarding⟩

/-- `AfterCount(n)` under `DISCARDING`, non-merging windows, for an
arbitrary count. -/
def acd (n : ℤ) : GeneralTriggerDriver := ⟨noMergeWindowFn, .afterCount n, .discarding⟩

/-- The raw state of an `AfterCount` single-window run mid-stream: window
`w` on internal id 1, `es` the pending elements, `cs` the inputs appended to
the `count` cell so far. -/
def acRaw (w : IntervalWindow) (es cs : List PyVal) : RawState :=
  { timers := []
    state := [(1, [("elements", .list es), ("count", .list cs)])]
    globalState := [("window_ids", [(w, [1])])] }

/-- The merge adapter over `acRaw`, with an explicit allocation counter (the
counter differs between a freshly wrapped adapter and one that allocated the
id itself during the current call). -/
def acAdapter (w : IntervalWindow) (es cs : List PyVal) (c : Option ℕ) :
    MergeableStateAdapter :=
  { raw_state := acRaw w es cs
    window_ids := [(w, [1])]
    counter := c }

/-- The merge adapter over an `AfterWatermark()` single-window run
mid-stream, with an explicit allocation counter. -/
def awAdapter (w : IntervalWindow) (es : List PyVal) (c : Option ℕ) :
    MergeableStateAdapter :=
  { raw_state := awActiveRaw w es
    window_ids := [(w, [1])]
    counter := c }

/-- A combiner whose `extract_output` is observably not the identity
(accumulators sum; extraction adds 100). -/
def c7CombineFn : CombineFn where
  createAccumulator := .int 0
  addInput := fun a v => .int (a.asInt + v.asInt)
  mergeAccumulators := fun vs => .int ((vs.map PyVal.asInt).sum)
  extractOutput := fun a => .int (a.asInt + 100)

/-- A combining tag over `c7CombineFn`. -/
def c7Tag : StateTag := .combiningValueStateTag "x" c7CombineFn

/-- A raw backend holding the single input `5` under `c7Tag` at id 1. -/
def c7Raw : RawState := emptyRaw.add_state 1 c7Tag (.int 5)

/-- A merge adapter over `c7Raw` in which `sampleW` owns exactly id 1. -/
def c7Adapter : MergeableStateAdapter :=
  { raw_state := c7Raw.set_global_state WINDOW_IDS [(sampleW, [1])]
    window_ids := [(sampleW, [1])]
    counter := Option.none }

/-! ## Theorems -/

section AListLemmas

variable {κ ν : Type} [DecidableEq κ]

theorem mem_alSet_weak {k : κ} {v : ν} {l : List (κ × ν)} {e : κ × ν}
    (h : e ∈ alSet k v l) : e ∈ l ∨ e = (k, v) := by
  induction l with
  | nil => simpa [alSet] using h
  | cons hd tl ih =>
      by_cases hk : hd.1 = k
      · rw [show hd = (hd.1, hd.2) from rfl] at h
        simp only [alSet, if_pos hk] at h
        rcases List.mem_cons.mp h with h1 | h1
        · right; rw [h1, hk]
        · left; exact List.mem_cons_of_mem _ h1
      · rw [show hd = (hd.1, hd.2) from rfl] at h
        simp only [alSet, if_neg hk] at h
        rcases List.mem_cons.mp h with h1 | h1
        · left; rw [h1]; exact List.mem_cons_self _ _
        · rcases ih h1 with h2 | h2
          · left; exact List.mem_cons_of_mem _ h2
          · right; exact h2

theorem alRemove_sublist (k : κ) (l : List (κ × ν)) : (alRemove k l).Sublist l := by
  induction l with
  | nil => simp [alRemove]
  | cons hd tl ih =>
      rw [show hd = (hd.1, hd.2) from rfl]
      simp only [alRemove]
      split
      · exact List.sublist_cons_self _ _
      · exact List.Sublist.cons₂ _ ih

theorem alGet_none_iff {k : κ} {l : List (κ × ν)} :
    alGet k l = Option.none ↔ ∀ e ∈ l, e.1 ≠ k := by
  induction l with
  | nil => simp [alGet]
  | cons hd tl ih =>
      obtain ⟨k', v'⟩ := hd
      simp only [alGet]
      by_cases hk : k' = k
      · simp only [if_pos hk]
        constructor
        · intro h; exact absurd h (by simp)
        · intro h
          exact absurd hk (h (k', v') (List.mem_cons_self _ _))
      · simp only [if_neg hk, ih]
        constructor
        · intro h e he
          rcases List.mem_cons.mp he with h1 | h1
          · rw [h1]; exact hk
          · exact h e h1
        · intro h e he
          exact h e (List.mem_cons_of_mem _ he)

theorem alSet_of_absent {k : κ} {v : ν} {l : List (κ × ν)}
    (h : alGet k l = Option.none) : alSet k v l = l ++ [(k, v)] := by
  induction l with
  | nil => simp [alSet]
  | cons hd tl ih =>
      obtain ⟨k', v'⟩ := hd
      simp only [alGet] at h
      by_cases hk : k' = k
      · rw [if_pos hk] at h
        exact absurd h (by simp)
      · rw [if_neg hk] at h
        simp only [alSet, if_neg hk, ih h, List.cons_append]

/-- Keys-distinct pairwise relation is preserved by `alSet`. -/
theorem alSet_pairwise_keys {k : κ} {v : ν} {l : List (κ × ν)}
    (h : l.Pairwise (fun e1 e2 => e1.1 ≠ e2.1)) :
    (alSet k v l).Pairwise (fun e1 e2 : κ × ν => e1.1 ≠ e2.1) := by
  induction l with
  | nil => simp [alSet]
  | cons hd tl ih =>
      rw [show hd = (hd.1, hd.2) from rfl]
      rcases List.pairwise_cons.mp h with ⟨hhd, htl⟩
      by_cases hk : hd.1 = k
      · simp only [alSet, if_pos hk]
        exact List.pairwise_cons.mpr ⟨hhd, htl⟩
      · simp only [alSet, if_neg hk]
        refine List.pairwise_cons.mpr ⟨?_, ih htl⟩
        intro e he
        rcases mem_alSet_weak he with h1 | h1
        · exact hhd e h1
        · rw [h1]; simpa using hk

theorem mem_alSet_iff {k : κ} {v : ν} {l : List (κ × ν)} {e : κ × ν}
    (hnd : l.Pairwise (fun e1 e2 => e1.1 ≠ e2.1)) :
    e ∈ alSet k v l ↔ ((e ∈ l ∧ e.1 ≠ k) ∨ e = (k, v)) := by
  induction l with
  | nil => simp [alSet]
  | cons hd tl ih =>
      obtain ⟨k', v'⟩ := hd
      rcases List.pairwise_cons.mp hnd with ⟨hhd, htl⟩
      by_cases hk : k' = k
      · simp only [alSet, if_pos hk, List.mem_cons]
        constructor
        · rintro (rfl | h1)
          · subst hk; exact Or.inr rfl
          · refine Or.inl ⟨Or.inr h1, fun hek => ?_⟩
            exact (hhd e h1) (by rw [hek, hk])
        · rintro (⟨rfl | h1, h2⟩ | rfl)
          · exact absurd hk (by simpa using h2)
          · exact Or.inr h1
          · subst hk; exact Or.inl rfl
      · simp only [alSet, if_neg hk, List.mem_cons, ih htl]
        constructor
        · rintro (rfl | ⟨h1, h2⟩ | rfl)
          · exact Or.inl ⟨Or.inl rfl, hk⟩
          · exact Or.inl ⟨Or.inr h1, h2⟩
          · exact Or.inr rfl
        · rintro (⟨rfl | h1, h2⟩ | rfl)
          · exact Or.inl rfl
          · exact Or.inr (Or.inl ⟨h1, h2⟩)
          · exact Or.inr (Or.inr rfl)

theorem mem_alRemove_iff {k : κ} {l : List (κ × ν)} {e : κ × ν}
    (hnd : l.Pairwise (fun e1 e2 => e1.1 ≠ e2.1)) :
    e ∈ alRemove k l ↔ e ∈ l ∧ e.1 ≠ k := by
  induction l with
  | nil => simp [alRemove]
  | cons hd tl ih =>
      obtain ⟨k', v'⟩ := hd
      rcases List.pairwise_cons.mp hnd with ⟨hhd, htl⟩
      by_cases hk : k' = k
      · simp only [alRemove, if_pos hk, List.mem_cons]
        constructor
        · intro h1
          refine ⟨Or.inr h1, fun hek => ?_⟩
          exact (hhd e h1) (by rw [hek, hk])
        · rintro ⟨rfl | h1, h2⟩
          · exact absurd hk (by simpa using h2)
          · exact h1
      · simp only [alRemove, if_neg hk, List.mem_cons, ih htl]
        constructor
        · rintro (rfl | ⟨h1, h2⟩)
          · exact ⟨Or.inl rfl, hk⟩
          · exact ⟨Or.inr h1, h2⟩
        · rintro ⟨rfl | h1, h2⟩
          · exact Or.inl rfl
          · exact Or.inr ⟨h1, h2⟩

theorem alGet_some_mem {k : κ} {v : ν} {l : List (κ × ν)} (h : alGet k l = some v) :
    (k, v) ∈ l := by
  induction l with
  | nil => simp [alGet] at h
  | cons hd tl ih =>
      obtain ⟨k', v'⟩ := hd
      simp only [alGet] at h
      by_cases hk : k' = k
      · rw [if_pos hk] at h
        obtain rfl : v' = v := by simpa using h
        subst hk
        exact List.mem_cons_self _ _
      · rw [if_neg hk] at h
        exact List.mem_cons_of_mem _ (ih h)

theorem alGet_of_mem_nodup {k : κ} {v : ν} {l : List (κ × ν)}
    (hnd : l.Pairwise (fun e1 e2 => e1.1 ≠ e2.1)) (h : (k, v) ∈ l) :
    alGet k l = some v := by
  induction l with
  | nil => simp at h
  | cons hd tl ih =>
      obtain ⟨k', v'⟩ := hd
      rcases List.pairwise_cons.mp hnd with ⟨hhd, htl⟩
      rcases List.mem_cons.mp h with h1 | h1
      · obtain ⟨ha, hb⟩ : k = k' ∧ v = v' := Prod.mk.injEq .. ▸ h1
        subst ha; subst hb
        simp [alGet]
      · simp only [alGet]
        rw [if_neg (fun hkk => (hhd _ h1) (by simpa using hkk))]
        exact ih htl h1

theorem alRemove_alSet_comm {k1 k2 : κ} {v : ν} {l : List (κ × ν)} (hne : k1 ≠ k2) :
    alRemove k1 (alSet k2 v l) = alSet k2 v (alRemove k1 l) := by
  induction l with
  | nil => simp [alSet, alRemove, Ne.symm hne]
  | cons hd tl ih =>
      obtain ⟨k', v'⟩ := hd
      by_cases h1 : k' = k2
      · have h2 : ¬k' = k1 := by rw [h1]; exact Ne.symm hne
        simp only [alSet, alRemove, if_pos h1, if_neg h2]
      · by_cases h2 : k' = k1
        · simp only [alSet, alRemove, if_pos h2, if_neg h1]
        · simp only [alSet, alRemove, if_neg h1, if_neg h2, ih]

end AListLemmas

/-- Every id occurring in a window-id map is bounded by `maxIdOf`. -/
theorem le_maxIdOf {m : WindowIdMap} {e : IntervalWindow × List ℕ} {i : ℕ}
    (he : e ∈ m) (hi : i ∈ e.2) : i ≤ MergeableStateAdapter.maxIdOf m := by
  have hmem : i ∈ (m.map Prod.snd).flatten :=
    List.mem_flatten.mpr ⟨e.2, List.mem_map.mpr ⟨e, he, rfl⟩, hi⟩
  have aux : ∀ (l : List ℕ) (acc : ℕ),
      acc ≤ l.foldl max acc ∧ ∀ j ∈ l, j ≤ l.foldl max acc := by
    intro l
    induction l with
    | nil => intro acc; simp
    | cons x xs ih =>
        intro acc
        refine ⟨le_trans (le_max_left acc x) (ih (max acc x)).1, ?_⟩
        intro j hj
        rcases List.mem_cons.mp hj with h1 | h1
        · rw [h1]
          exact le_trans (le_max_right acc x) (ih (max acc x)).1
        · exact (ih (max acc x)).2 j h1
  exact (aux _ 0).2 i hmem

theorem WindowIdMapWF.keys_pairwise {m : WindowIdMap} (h : WindowIdMapWF m) :
    m.Pairwise (fun e1 e2 => e1.1 ≠ e2.1) :=
  h.1.imp (fun hab => hab.1)

/-- In a well-formed id map, any two distinct entries have disjoint id
lists (in both directions). -/
theorem WindowIdMapWF.disjoint {m : WindowIdMap} (h : WindowIdMapWF m)
    {e1 e2 : IntervalWindow × List ℕ} (h1 : e1 ∈ m) (h2 : e2 ∈ m) (hne : e1 ≠ e2) :
    ∀ i ∈ e1.2, i ∉ e2.2 := by
  have hS : m.Pairwise (fun a b : IntervalWindow × List ℕ =>
      a.1 ≠ b.1 ∧ (∀ i ∈ a.2, i ∉ b.2) ∧ (∀ i ∈ b.2, i ∉ a.2)) :=
    h.1.imp (fun hab => ⟨hab.1, hab.2, fun i hib hia => hab.2 i hia hib⟩)
  have hsym : Symmetric (fun a b : IntervalWindow × List ℕ =>
      a.1 ≠ b.1 ∧ (∀ i ∈ a.2, i ∉ b.2) ∧ (∀ i ∈ b.2, i ∉ a.2)) := by
    intro a b hab
    exact ⟨hab.1.symm, hab.2.2, hab.2.1⟩
  exact (List.Pairwise.forall hsym hS h1 h2 hne).2.1

/-- With a well-formed map, the key of an entry determines its id list. -/
theorem WindowIdMapWF.list_of_mem {m : WindowIdMap} (h : WindowIdMapWF m)
    {w : IntervalWindow} {ids ids' : List ℕ} (h1 : (w, ids) ∈ m)
    (h2 : alGet w m = some ids') : ids = ids' := by
  have := alGet_of_mem_nodup h.keys_pairwise h1
  rw [this] at h2
  exact Option.some.inj h2

/-- `_get_next_counter` returns a value strictly above every id in the map of
a well-formed adapter. -/
theorem getNextCounter_gt (a : MergeableStateAdapter) (hwf : AdapterWF a) :
    ∀ e ∈ a.window_ids, ∀ i ∈ e.2, i < (a.getNextCounter).1 := by
  intro e he i hi
  have hne : ¬(a.window_ids.isEmpty = true) := by
    intro h
    rw [List.isEmpty_iff] at h
    rw [h] at he
    simp at he
  unfold MergeableStateAdapter.getNextCounter
  simp only [if_neg hne]
  cases hc : a.counter with
  | none => exact Nat.lt_succ_of_le (le_maxIdOf he hi)
  | some c => exact Nat.lt_succ_of_le (hwf.2 c hc e he i hi)

theorem getNextCounter_snd (a : MergeableStateAdapter) :
    (a.getNextCounter).2 = { a with counter := some (a.getNextCounter).1 } := rfl

theorem getId_known (a : MergeableStateAdapter) (w : IntervalWindow) (ids : List ℕ)
    (h : alGet w a.window_ids = some ids) : a.getId w = (ids.headI, a) := by
  unfold MergeableStateAdapter.getId
  rw [h]

theorem getId_alloc (a : MergeableStateAdapter) (w : IntervalWindow)
    (h : alGet w a.window_ids = Option.none) :
    a.getId w = ((a.getNextCounter).1,
      MergeableStateAdapter.persistWindowIds
        { raw_state := a.raw_state
          window_ids := alSet w [(a.getNextCounter).1] a.window_ids
          counter := some (a.getNextCounter).1 }) := by
  unfold MergeableStateAdapter.getId
  rw [h]
  rfl

/-- `_get_id` keeps the adapter well formed: a known window leaves it
untouched; a fresh window receives a strictly-larger singleton id list. -/
theorem getId_wf (a : MergeableStateAdapter) (w : IntervalWindow) (hwf : AdapterWF a) :
    AdapterWF (a.getId w).2 := by
  cases hg : alGet w a.window_ids with
  | some ids => rw [getId_known a w ids hg]; exact hwf
  | none =>
      rw [getId_alloc a w hg]
      have hfresh := getNextCounter_gt a hwf
      have hset : alSet w [(a.getNextCounter).1] a.window_ids
          = a.window_ids ++ [(w, [(a.getNextCounter).1])] := alSet_of_absent hg
      simp only [MergeableStateAdapter.persistWindowIds, AdapterWF, WindowIdMapWF, hset]
      refine ⟨⟨?_, ?_⟩, ?_⟩
      · rw [List.pairwise_append]
        refine ⟨hwf.1.1, by simp, ?_⟩
        intro e he e' he'
        obtain rfl : e' = (w, [(a.getNextCounter).1]) := by simpa using he'
        refine ⟨alGet_none_iff.mp hg e he, ?_⟩
        intro i hi
        have hlt := hfresh e he i hi
        intro hmem
        rcases List.mem_singleton.mp hmem with rfl
        omega
      · intro e he
        rcases List.mem_append.mp he with h1 | h1
        · exact hwf.1.2 e h1
        · obtain rfl : e = (w, [(a.getNextCounter).1]) := by simpa using h1
          simp
      · intro c hc e he i hi
        obtain rfl : (a.getNextCounter).1 = c := by simpa using hc
        rcases List.mem_append.mp he with h1 | h1
        · exact le_of_lt (hfresh e h1 i hi)
        · obtain rfl : e = (w, [(a.getNextCounter).1]) := by simpa using h1
          rcases List.mem_singleton.mp hi with rfl
          exact le_refl _

/-- One `merge` move: transplanting the whole id list of `win` onto `res`
keeps the map well formed and preserves the set of ids present. -/
theorem merge_move_wf (m : WindowIdMap) (hwf : WindowIdMapWF m) (win res : IntervalWindow)
    (hne : win ≠ res) (src : List ℕ) (hsrc : alGet win m = some src) :
    WindowIdMapWF (MergeableStateAdapter.mergeMoveMap m win res src) ∧
    (∀ i, (∃ e ∈ MergeableStateAdapter.mergeMoveMap m win res src, i ∈ e.2) ↔
          (∃ e ∈ m, i ∈ e.2)) := by
  unfold MergeableStateAdapter.mergeMoveMap
  have hkeys : m.Pairwise (fun e1 e2 : IntervalWindow × List ℕ => e1.1 ≠ e2.1) :=
    hwf.keys_pairwise
  have hsrc_mem : (win, src) ∈ m := alGet_some_mem hsrc
  have hm1keys : (alRemove win m).Pairwise
      (fun e1 e2 : IntervalWindow × List ℕ => e1.1 ≠ e2.1) :=
    hkeys.sublist (alRemove_sublist win m)
  have hm1rel : (alRemove win m).Pairwise
      (fun e1 e2 : IntervalWindow × List ℕ => e1.1 ≠ e2.1 ∧ ∀ i ∈ e1.2, i ∉ e2.2) :=
    hwf.1.sublist (alRemove_sublist win m)
  have hcomm : alRemove win (alSet res ((alGet res m).getD [] ++ src) m)
      = alSet res ((alGet res m).getD [] ++ src) (alRemove win m) :=
    alRemove_alSet_comm hne
  -- ids in the transplanted list come from entries of `m`
  have hdest_src : ∀ i ∈ (alGet res m).getD [] ++ src,
      ∃ e ∈ m, i ∈ e.2 ∧ (e.1 = res ∨ e.1 = win) := by
    intro i hi
    rcases List.mem_append.mp hi with h1 | h1
    · cases hres : alGet res m with
      | none => rw [hres] at h1; simp at h1
      | some destv =>
          rw [hres] at h1
          exact ⟨(res, destv), alGet_some_mem hres, by simpa using h1, Or.inl rfl⟩
    · exact ⟨(win, src), hsrc_mem, h1, Or.inr rfl⟩
  -- the transplanted list is disjoint from every surviving other entry
  have hdisj : ∀ e ∈ alRemove win m, e.1 ≠ res →
      ∀ i ∈ (alGet res m).getD [] ++ src, i ∉ e.2 := by
    intro e he hener i hi hie
    obtain ⟨hem, henw⟩ := (mem_alRemove_iff hkeys).mp he
    obtain ⟨e', he'm, hie', hkey⟩ := hdest_src i hi
    have hne' : e' ≠ e := by
      intro hh
      rw [hh] at hkey
      rcases hkey with h | h
      · exact hener h
      · exact henw h
    exact hwf.disjoint he'm hem hne' i hie' hie
  rw [hcomm]
  constructor
  · constructor
    · -- pairwise of the updated map
      have : ∀ (l : List (IntervalWindow × List ℕ)),
          l.Pairwise (fun e1 e2 => e1.1 ≠ e2.1 ∧ ∀ i ∈ e1.2, i ∉ e2.2) →
          (∀ e ∈ l, e.1 ≠ res → ∀ i ∈ (alGet res m).getD [] ++ src, i ∉ e.2) →
          (alSet res ((alGet res m).getD [] ++ src) l).Pairwise
            (fun e1 e2 => e1.1 ≠ e2.1 ∧ ∀ i ∈ e1.2, i ∉ e2.2) := by
        intro l
        induction l with
        | nil => intro _ _; simp [alSet]
        | cons hd tl ih =>
            intro hp hv
            obtain ⟨k', v'⟩ := hd
            rcases List.pairwise_cons.mp hp with ⟨hhd, htl⟩
            by_cases hk : k' = res
            · simp only [alSet, if_pos hk]
              refine List.pairwise_cons.mpr ⟨?_, htl⟩
              intro e he
              refine ⟨(hhd e he).1, ?_⟩
              intro i hi
              refine hv e (List.mem_cons_of_mem _ he) ?_ i hi
              intro hres
              exact (hhd e he).1 (by rw [hres, hk])
            · simp only [alSet, if_neg hk]
              refine List.pairwise_cons.mpr ⟨?_, ih htl ?_⟩
              · intro e he
                rcases mem_alSet_weak he with h1 | h1
                · exact hhd e h1
                · rw [h1]
                  refine ⟨hk, ?_⟩
                  intro i hi hcontra
                  exact hv (k', v') (List.mem_cons_self _ _) hk i hcontra hi
              · intro e he
                exact hv e (List.mem_cons_of_mem _ he)
      exact this (alRemove win m) hm1rel hdisj
    · -- entries stay nonempty
      intro e he
      rcases mem_alSet_weak he with h1 | h1
      · exact hwf.2 e ((mem_alRemove_iff hkeys).mp h1).1
      · rw [h1]
        have : src ≠ [] := hwf.2 (win, src) hsrc_mem
        simp only [Prod.snd]
        intro hcontra
        rw [List.append_eq_nil] at hcontra
        exact this hcontra.2
  · -- set of ids preserved
    intro i
    constructor
    · rintro ⟨e, he, hie⟩
      rcases (mem_alSet_iff hm1keys).mp he with ⟨h1, _⟩ | rfl
      · exact ⟨e, ((mem_alRemove_iff hkeys).mp h1).1, hie⟩
      · obtain ⟨e', he'm, hie', _⟩ := hdest_src i hie
        exact ⟨e', he'm, hie'⟩
    · rintro ⟨e, he, hie⟩
      by_cases hw : e.1 = win
      · have hesrc : e.2 = src := by
          have : (win, e.2) ∈ m := by
            rw [← hw]
            exact he
          exact hwf.list_of_mem this hsrc
        refine ⟨(res, (alGet res m).getD [] ++ src), ?_, ?_⟩
        · exact (mem_alSet_iff hm1keys).mpr (Or.inr rfl)
        · simp only [Prod.snd]
          rw [← hesrc]
          exact List.mem_append_right _ hie
      · by_cases hr : e.1 = res
        · have hres : alGet res m = some e.2 := by
            have : (res, e.2) ∈ m := by rw [← hr]; exact he
            exact alGet_of_mem_nodup hkeys this
          refine ⟨(res, (alGet res m).getD [] ++ src), ?_, ?_⟩
          · exact (mem_alSet_iff hm1keys).mpr (Or.inr rfl)
          · simp only [Prod.snd]
            rw [hres]
            exact List.mem_append_left _ (by simpa using hie)
        · refine ⟨e, ?_, hie⟩
          refine (mem_alSet_iff hm1keys).mpr (Or.inl ⟨?_, hr⟩)
          exact (mem_alRemove_iff hkeys).mpr ⟨he, hw⟩

/-- `merge` keeps the adapter well formed, does not touch the counter, and
preserves the set of ids present in the map: id lists are only ever moved
whole from sources onto the destination. -/
theorem merge_wf (a : MergeableStateAdapter) (tbm : List IntervalWindow)
    (res : IntervalWindow) (hwf : AdapterWF a) :
    AdapterWF (a.merge tbm res) ∧
    (a.merge tbm res).counter = a.counter ∧
    (∀ i, (∃ e ∈ (a.merge tbm res).window_ids, i ∈ e.2) ↔ (∃ e ∈ a.window_ids, i ∈ e.2)) := by
  induction tbm generalizing a with
  | nil => exact ⟨hwf, rfl, fun i => Iff.rfl⟩
  | cons win rest ih =>
      by_cases hne : win = res
      · have : a.merge (win :: rest) res = a.merge rest res := by
          simp [MergeableStateAdapter.merge, hne]
        rw [this]
        exact ih a hwf
      · cases hg : alGet win a.window_ids with
        | none =>
            have : a.merge (win :: rest) res = a.merge rest res := by
              simp [MergeableStateAdapter.merge, hne, hg]
            rw [this]
            exact ih a hwf
        | some src =>
            have hmove := merge_move_wf a.window_ids hwf.1 win res hne src hg
            have hstep : a.merge (win :: rest) res
                = (MergeableStateAdapter.persistWindowIds
                    { a with window_ids :=
                        MergeableStateAdapter.mergeMoveMap a.window_ids win res src
                    }).merge rest res := by
              simp [MergeableStateAdapter.merge, hne, hg]
            rw [hstep]
            have hwf' : AdapterWF (MergeableStateAdapter.persistWindowIds
                { a with window_ids :=
                    MergeableStateAdapter.mergeMoveMap a.window_ids win res src }) := by
              refine ⟨hmove.1, ?_⟩
              intro c hc e he i hi
              have hc' : a.counter = some c := hc
              obtain ⟨e', he', hie'⟩ := (hmove.2 i).mp ⟨e, he, hi⟩
              exact hwf.2 c hc' e' he' i hie'
            obtain ⟨ih1, ih2, ih3⟩ := ih _ hwf'
            refine ⟨ih1, ih2, ?_⟩
            intro i
            exact (ih3 i).trans (hmove.2 i)

/-- C10: the merge adapter's window-id map keeps every internal id in at most
one window's list: under the adapter invariant, a fresh id allocated by
`_get_id` for an unknown window is strictly greater than every id already in
the map, `_get_id` and `merge` preserve the invariant (merge moving whole id
lists and the set of ids), and `get_window` identifies at most one window
for any timer id. -/
theorem C10_window_id_map_invariants (a : MergeableStateAdapter) (w : IntervalWindow)
    (tbm : List IntervalWindow) (res : IntervalWindow) (tid : ℕ) (w' : IntervalWindow)
    (hwf : AdapterWF a) :
    (alGet w a.window_ids = Option.none →
      ∀ e ∈ a.window_ids, ∀ i ∈ e.2, i < (a.getId w).1) ∧
    AdapterWF (a.getId w).2 ∧
    AdapterWF (a.merge tbm res) ∧
    (∀ i, (∃ e ∈ (a.merge tbm res).window_ids, i ∈ e.2) ↔ (∃ e ∈ a.window_ids, i ∈ e.2)) ∧
    (a.get_window tid = .ok w' → ∀ e ∈ a.window_ids, tid ∈ e.2 → e.1 = w') := by
  refine ⟨?_, getId_wf a w hwf, (merge_wf a tbm res hwf).1, (merge_wf a tbm res hwf).2.2, ?_⟩
  · intro hg e he i hi
    rw [getId_alloc a w hg]
    exact getNextCounter_gt a hwf e he i hi
  · intro hgw e he hte
    unfold MergeableStateAdapter.get_window at hgw
    cases hf : a.window_ids.find? (fun entry => tid ∈ entry.2) with
    | none => rw [hf] at hgw; exact Except.noConfusion hgw
    | some entry =>
        rw [hf] at hgw
        have hw' : entry.1 = w' := by
          simpa using hgw
        have hentry_mem : entry ∈ a.window_ids := List.mem_of_find?_eq_some hf
        have hentry_tid : tid ∈ entry.2 := by
          have := List.find?_some hf
          simpa using this
        by_cases heq : e = entry
        · rw [heq, hw']
        · exact absurd hte (hwf.1.disjoint hentry_mem he (fun hh => heq hh.symm) tid hentry_tid)

/-- Witness for C10 at the concrete one-window adapter `c7Adapter`. -/
theorem C10_window_id_map_invariants_witness :
    AdapterWF (c7Adapter.getId ⟨100, 200⟩).2 ∧
    (c7Adapter.get_window 1 = .ok sampleW →
      ∀ e ∈ c7Adapter.window_ids, 1 ∈ e.2 → e.1 = sampleW) := by
  have hwf : AdapterWF c7Adapter := by
    constructor
    · constructor
      · simp [c7Adapter]
      · intro e he
        simp only [c7Adapter] at he
        rcases List.mem_singleton.mp he with rfl
        simp
    · intro c hc
      exact absurd hc (by simp [c7Adapter])
  exact ⟨(C10_window_id_map_invariants c7Adapter ⟨100, 200⟩ [] sampleW 1 sampleW hwf).2.1,
    (C10_window_id_map_invariants c7Adapter ⟨100, 200⟩ [] sampleW 1 sampleW hwf).2.2.2.2⟩

/-! ### Single-window driver machinery -/

theorem alGet_cons_self {κ ν : Type} [DecidableEq κ] (k : κ) (v : ν) (l : List (κ × ν)) :
    alGet k ((k, v) :: l) = some v := by
  simp [alGet]

theorem alGet_alSet_self {κ ν : Type} [DecidableEq κ] (k : κ) (v : ν) (l : List (κ × ν)) :
    alGet k (alSet k v l) = some v := by
  induction l with
  | nil => simp [alGet, alSet]
  | cons hd tl ih =>
      obtain ⟨k', v'⟩ := hd
      by_cases hk : k' = k
      · simp [alSet, alGet, if_pos hk, hk]
      · simp only [alSet, if_neg hk, alGet]
        exact ih

theorem alGet_alSet_ne {κ ν : Type} [DecidableEq κ] {k k' : κ} (v : ν) (l : List (κ × ν))
    (h : k ≠ k') : alGet k' (alSet k v l) = alGet k' l := by
  induction l with
  | nil => simp [alGet, alSet, h]
  | cons hd tl ih =>
      obtain ⟨k0, v0⟩ := hd
      by_cases hk : k0 = k
      · simp only [alSet, if_pos hk, alGet]
        rw [if_neg (by rw [hk]; exact h), if_neg (by rw [hk]; exact h)]
      · simp only [alSet, if_neg hk, alGet]
        by_cases hk' : k0 = k'
        · rw [if_pos hk', if_pos hk']
        · rw [if_neg hk', if_neg hk']
          exact ih

theorem alGet_alRemove_ne {κ ν : Type} [DecidableEq κ] {k k' : κ} (l : List (κ × ν))
    (h : k ≠ k') : alGet k' (alRemove k l) = alGet k' l := by
  induction l with
  | nil => simp [alRemove]
  | cons hd tl ih =>
      obtain ⟨k0, v0⟩ := hd
      by_cases hk : k0 = k
      · simp only [alRemove, if_pos hk, alGet]
        rw [if_neg (by rw [hk]; exact h)]
      · simp only [alRemove, if_neg hk, alGet]
        by_cases hk' : k0 = k'
        · rw [if_pos hk', if_pos hk']
        · rw [if_neg hk', if_neg hk']
          exact ih

/-- `CountCombineFn.apply` counts its inputs. -/
theorem countApply (vs : List PyVal) : CountCombineFn.applyFn vs = .int vs.length := by
  have aux : ∀ (l : List PyVal) (n : ℤ),
      l.foldl CountCombineFn.addInput (.int n) = .int (n + l.length) := by
    intro l
    induction l with
    | nil => intro n; simp
    | cons x xs ih =>
        intro n
        have : CountCombineFn.addInput (.int n) x = .int (n + 1) := rfl
        simp only [List.foldl_cons, this, ih, List.length_cons]
        congr 1
        push_cast
        ring
  have h0 := aux vs 0
  simp only [CombineFn.applyFn]
  have hcc : CountCombineFn.createAccumulator = .int 0 := rfl
  rw [hcc, h0]
  have hex : ∀ v, CountCombineFn.extractOutput v = v := fun _ => rfl
  rw [hex]
  congr 1
  omega

theorem init_raw_state (s : RawState) : (MergeableStateAdapter.init s).raw_state = s := rfl

theorem init_window_ids (s : RawState) :
    (MergeableStateAdapter.init s).window_ids
      = (alGet "window_ids" s.globalState).getD [] := rfl

section SingleWindowAdapter

variable {a : MergeableStateAdapter} {w : IntervalWindow}

theorem single_getIds (hm : a.window_ids = [(w, [1])]) : a.getIds w = [1] := by
  simp [MergeableStateAdapter.getIds, hm, alGet_cons_self]

theorem single_getId (hm : a.window_ids = [(w, [1])]) : a.getId w = (1, a) := by
  have : alGet w a.window_ids = some [1] := by rw [hm]; exact alGet_cons_self _ _ _
  rw [getId_known a w [1] this]
  rfl

theorem single_get_tombstone (hm : a.window_ids = [(w, [1])]) :
    a.get_state w TOMBSTONE = .int ((a.raw_state.cellOf 1 "tombstone").elems).length := by
  simp only [MergeableStateAdapter.get_state, TOMBSTONE, single_getIds hm, List.map_cons,
    List.map_nil, List.isEmpty_cons, List.length_cons, List.length_nil]
  simp only [InMemoryUnmergedState.get_state, StateTag.tagName]
  rw [if_pos trivial]
  simp only [List.headI]
  have : CountCombineFn.extractOutput (CountCombineFn.applyFn
      ((a.raw_state.cellOf 1 "tombstone").elems))
      = CountCombineFn.applyFn ((a.raw_state.cellOf 1 "tombstone").elems) := rfl
  rw [this, countApply]
  simp

theorem single_get_elements (hm : a.window_ids = [(w, [1])]) :
    a.get_state w ELEMENTS = .list ((a.raw_state.cellOf 1 "elements").elems) := by
  simp only [MergeableStateAdapter.get_state, ELEMENTS, single_getIds hm, List.map_cons,
    List.map_nil]
  simp only [InMemoryUnmergedState.get_state, StateTag.tagName]
  simp

theorem single_add_state (hm : a.window_ids = [(w, [1])]) (name : String) (fn : CombineFn)
    (v : PyVal) :
    a.add_state w (.combiningValueStateTag name fn) v
      = { a with raw_state := a.raw_state.add_state 1 (.combiningValueStateTag name fn) v } := by
  simp only [MergeableStateAdapter.add_state, single_getId hm]

theorem single_add_state_list (hm : a.window_ids = [(w, [1])]) (name : String) (v : PyVal) :
    a.add_state w (.listStateTag name) v
      = { a with raw_state := a.raw_state.add_state 1 (.listStateTag name) v } := by
  simp only [MergeableStateAdapter.add_state, single_getId hm]

theorem single_clear_state_tag (hm : a.window_ids = [(w, [1])]) (tag : StateTag) :
    a.clear_state w (some tag)
      = { a with raw_state := a.raw_state.clear_state 1 (some tag) } := by
  simp only [MergeableStateAdapter.clear_state, single_getIds hm, List.foldl_cons,
    List.foldl_nil]

theorem single_set_timer (hm : a.window_ids = [(w, [1])]) (tag : String) (ts : ℤ) :
    a.set_timer w tag ts
      = { a with raw_state := a.raw_state.set_timer 1 tag ts } := by
  simp only [MergeableStateAdapter.set_timer, single_getId hm]

theorem single_clear_timer (hm : a.window_ids = [(w, [1])]) (tag : String) :
    a.clear_timer w tag
      = { a with raw_state := a.raw_state.clear_timer 1 tag } := by
  simp only [MergeableStateAdapter.clear_timer, single_getIds hm, List.foldl_cons,
    List.foldl_nil]

theorem single_known_windows (hm : a.window_ids = [(w, [1])]) :
    a.known_windows = [w] := by
  simp [MergeableStateAdapter.known_windows, hm]

theorem single_get_window (hm : a.window_ids = [(w, [1])]) :
    a.get_window 1 = .ok w := by
  simp [MergeableStateAdapter.get_window, hm, List.find?]

end SingleWindowAdapter

/-! ### Context resolution and trigger state footprint -/

section CtxResolve

variable {σ : Type} (ops : SimpleStateOps σ)

theorem ctx_set_timer_eq : ∀ (c : Ctx) (tag : String) (ts : ℤ) (s : σ),
    Ctx.set_timer ops c tag ts s = ops.setTimer s c.window (c.resolveTimer tag) ts := by
  intro c
  induction c with
  | trigger w => intro tag ts s; rfl
  | nested c0 p ih =>
      intro tag ts s
      simp only [Ctx.set_timer, Ctx.window, Ctx.resolveTimer]
      exact ih (p ++ tag) ts s

theorem ctx_clear_timer_eq : ∀ (c : Ctx) (tag : String) (s : σ),
    Ctx.clear_timer ops c tag s = ops.clearTimer s c.window (c.resolveTimer tag) := by
  intro c
  induction c with
  | trigger w => intro tag s; rfl
  | nested c0 p ih =>
      intro tag s
      simp only [Ctx.clear_timer, Ctx.window, Ctx.resolveTimer]
      exact ih (p ++ tag) s

theorem ctx_add_state_eq : ∀ (c : Ctx) (tag : StateTag) (v : PyVal) (s : σ),
    Ctx.add_state ops c tag v s = ops.addState s c.window (c.resolve tag) v := by
  intro c
  induction c with
  | trigger w => intro tag v s; rfl
  | nested c0 p ih =>
      intro tag v s
      simp only [Ctx.add_state, Ctx.window, Ctx.resolve]
      exact ih (tag.withPfx p) v s

theorem ctx_get_state_eq : ∀ (c : Ctx) (tag : StateTag) (s : σ),
    Ctx.get_state ops c tag s = ops.getState s c.window (c.resolve tag) := by
  intro c
  induction c with
  | trigger w => intro tag s; rfl
  | nested c0 p ih =>
      intro tag s
      simp only [Ctx.get_state, Ctx.window, Ctx.resolve]
      exact ih (tag.withPfx p) s

theorem ctx_clear_state_eq : ∀ (c : Ctx) (tag : StateTag) (s : σ),
    Ctx.clear_state ops c tag s = ops.clearState s c.window (c.resolve tag) := by
  intro c
  induction c with
  | trigger w => intro tag s; rfl
  | nested c0 p ih =>
      intro tag s
      simp only [Ctx.clear_state, Ctx.window, Ctx.resolve]
      exact ih (tag.withPfx p) s

end CtxResolve

theorem resolve_combining (c : Ctx) (n : String) (fn : CombineFn) :
    ∃ P : String, c.resolve (.combiningValueStateTag n fn)
      = .combiningValueStateTag (P ++ n) fn := by
  induction c generalizing n with
  | trigger w =>
      refine ⟨"", ?_⟩
      have : ("" : String) ++ n = n := by
        cases n
        rfl
      rw [this]
      rfl
  | nested c0 p ih =>
      obtain ⟨P, hP⟩ := ih (p ++ n)
      refine ⟨P ++ p, ?_⟩
      simp only [Ctx.resolve, StateTag.withPfx, hP, String.append_assoc]

theorem append_ne_of_rev (P S T : String)
    (h : ¬(S.data.reverse <+: T.data.reverse)) : P ++ S ≠ T := by
  intro he
  apply h
  have hd : P.data ++ S.data = T.data := by rw [← String.data_append, he]
  refine ⟨P.data.reverse, ?_⟩
  rw [← List.reverse_append, hd]

theorem count_ne_elements (P : String) : P ++ "count" ≠ "elements" :=
  append_ne_of_rev _ _ _ (by decide)

theorem count_ne_tombstone (P : String) : P ++ "count" ≠ "tombstone" :=
  append_ne_of_rev _ _ _ (by decide)

theorem islate_ne_elements (P : String) : P ++ "is_late" ≠ "elements" :=
  append_ne_of_rev _ _ _ (by decide)

theorem islate_ne_tombstone (P : String) : P ++ "is_late" ≠ "tombstone" :=
  append_ne_of_rev _ _ _ (by decide)

theorem TFrame.refl' (st : MergeableStateAdapter) : TFrame st st :=
  ⟨rfl, rfl, rfl, fun cm h => ⟨cm, h, rfl, rfl, id⟩⟩

theorem TFrame.trans {s1 s2 s3 : MergeableStateAdapter} (h12 : TFrame s1 s2)
    (h23 : TFrame s2 s3) : TFrame s1 s3 := by
  obtain ⟨a1, b1, c1, d1⟩ := h12
  obtain ⟨a2, b2, c2, d2⟩ := h23
  refine ⟨a2.trans a1, b2.trans b1, c2.trans c1, ?_⟩
  intro cm h
  obtain ⟨cm', h', he, ht, hnd⟩ := d1 cm h
  obtain ⟨cm'', h'', he', ht', hnd'⟩ := d2 cm' h'
  exact ⟨cm'', h'', he'.trans he, ht'.trans ht, fun hp => hnd' (hnd hp)⟩

theorem TFrame.window_ids_eq {s1 s2 : MergeableStateAdapter} (h : TFrame s1 s2) :
    s2.window_ids = s1.window_ids := h.1

section TFrameOps

variable {w : IntervalWindow} {st : MergeableStateAdapter}

theorem tframe_add_state (hm : st.window_ids = [(w, [1])]) (name : String)
    (fn : CombineFn) (v : PyVal) (hne : name ≠ "elements") (hnt : name ≠ "tombstone") :
    TFrame st (st.add_state w (.combiningValueStateTag name fn) v) := by
  rw [single_add_state hm]
  refine ⟨rfl, rfl, rfl, ?_⟩
  intro cm h
  simp only [InMemoryUnmergedState.add_state, StateTag.tagName, h, alGet_cons_self,
    Option.getD_some]
  refine ⟨alSet name (match InMemoryUnmergedState.cellOf st.raw_state 1 name with
      | PyVal.list xs => PyVal.list (xs ++ [v])
      | c => c) cm,
    by simp [alSet], alGet_alSet_ne _ _ hne, alGet_alSet_ne _ _ hnt,
    fun hp => alSet_pairwise_keys hp⟩

theorem tframe_clear_state (hm : st.window_ids = [(w, [1])]) (tag : StateTag)
    (hne : tag.tagName ≠ "elements") (hnt : tag.tagName ≠ "tombstone") :
    TFrame st (st.clear_state w (some tag)) := by
  rw [single_clear_state_tag hm]
  refine ⟨rfl, rfl, rfl, ?_⟩
  intro cm h
  simp only [InMemoryUnmergedState.clear_state, h, alGet_cons_self, Option.getD_some]
  refine ⟨alRemove tag.tagName cm,
    by simp [alSet], alGet_alRemove_ne _ hne, alGet_alRemove_ne _ hnt,
    fun hp => hp.sublist (alRemove_sublist _ _)⟩

theorem tframe_set_timer (hm : st.window_ids = [(w, [1])]) (tag : String) (ts : ℤ) :
    TFrame st (st.set_timer w tag ts) := by
  rw [single_set_timer hm]
  exact ⟨rfl, rfl, rfl, fun cm h => ⟨cm, h, rfl, rfl, id⟩⟩

theorem tframe_clear_timer (hm : st.window_ids = [(w, [1])]) (tag : String) :
    TFrame st (st.clear_timer w tag) := by
  rw [single_clear_timer hm]
  exact ⟨rfl, rfl, rfl, fun cm h => ⟨cm, h, rfl, rfl, id⟩⟩

theorem tframe_ctx_add_count (hm : st.window_ids = [(w, [1])]) (c : Ctx)
    (hcw : c.window = w) (v : PyVal) :
    TFrame st (Ctx.add_state adapterOps c COUNT_TAG v st) := by
  rw [ctx_add_state_eq]
  obtain ⟨P, hP⟩ := resolve_combining c "count" CountCombineFn
  rw [hcw]
  rw [show c.resolve COUNT_TAG = .combiningValueStateTag (P ++ "count") CountCombineFn
    from hP]
  exact tframe_add_state hm _ _ v (count_ne_elements P) (count_ne_tombstone P)

theorem tframe_ctx_add_late (hm : st.window_ids = [(w, [1])]) (c : Ctx)
    (hcw : c.window = w) (v : PyVal) :
    TFrame st (Ctx.add_state adapterOps c LATE_TAG v st) := by
  rw [ctx_add_state_eq]
  obtain ⟨P, hP⟩ := resolve_combining c "is_late" anyCombineFn
  rw [hcw]
  rw [show c.resolve LATE_TAG = .combiningValueStateTag (P ++ "is_late") anyCombineFn
    from hP]
  exact tframe_add_state hm _ _ v (islate_ne_elements P) (islate_ne_tombstone P)

theorem tframe_ctx_clear_count (hm : st.window_ids = [(w, [1])]) (c : Ctx)
    (hcw : c.window = w) :
    TFrame st (Ctx.clear_state adapterOps c COUNT_TAG st) := by
  rw [ctx_clear_state_eq]
  obtain ⟨P, hP⟩ := resolve_combining c "count" CountCombineFn
  rw [hcw]
  rw [show c.resolve COUNT_TAG = .combiningValueStateTag (P ++ "count") CountCombineFn
    from hP]
  exact tframe_clear_state hm _ (count_ne_elements P) (count_ne_tombstone P)

theorem tframe_ctx_clear_late (hm : st.window_ids = [(w, [1])]) (c : Ctx)
    (hcw : c.window = w) :
    TFrame st (Ctx.clear_state adapterOps c LATE_TAG st) := by
  rw [ctx_clear_state_eq]
  obtain ⟨P, hP⟩ := resolve_combining c "is_late" anyCombineFn
  rw [hcw]
  rw [show c.resolve LATE_TAG = .combiningValueStateTag (P ++ "is_late") anyCombineFn
    from hP]
  exact tframe_clear_state hm _ (islate_ne_elements P) (islate_ne_tombstone P)

theorem tframe_ctx_set_timer (hm : st.window_ids = [(w, [1])]) (c : Ctx)
    (hcw : c.window = w) (tag : String) (ts : ℤ) :
    TFrame st (Ctx.set_timer adapterOps c tag ts st) := by
  rw [ctx_set_timer_eq, hcw]
  exact tframe_set_timer hm _ ts

theorem tframe_ctx_clear_timer (hm : st.window_ids = [(w, [1])]) (c : Ctx)
    (hcw : c.window = w) (tag : String) :
    TFrame st (Ctx.clear_timer adapterOps c tag st) := by
  rw [ctx_clear_timer_eq, hcw]
  exact tframe_clear_timer hm _

end TFrameOps

theorem alGet_alRemove_self_nodup {κ ν : Type} [DecidableEq κ] {k : κ} {l : List (κ × ν)}
    (hnd : l.Pairwise (fun e1 e2 => e1.1 ≠ e2.1)) :
    alGet k (alRemove k l) = Option.none := by
  rw [alGet_none_iff]
  intro e he
  exact ((mem_alRemove_iff hnd).mp he).2

/-- Trigger state footprint: over a single-window adapter (window `w` owning
id 1), `on_element`, `on_fire` and `reset` of every library trigger leave the
id map, counter, persisted globals and the driver's `elements`/`tombstone`
cells untouched — triggers only write their own combining tags, whose names
end in `count` / `is_late`. -/
theorem trigger_frame (w : IntervalWindow) :
    (t : TriggerFn) → (c : Ctx) → (st : MergeableStateAdapter) → (v : PyVal) →
    (wm : Watermark) → (win : IntervalWindow) → Ctx.window c = w →
    st.window_ids = [(w, [1])] →
    TFrame st (onElement adapterOps t v win c st) ∧
    TFrame st ((onFire adapterOps t wm win c st).2) ∧
    TFrame st (resetT adapterOps t win c st)
  | .defaultTrigger, c, st, v, wm, win, hcw, hm => by
      refine ⟨?_, ?_, ?_⟩
      · simp only [onElement]
        exact tframe_ctx_set_timer hm c hcw "" win.wend
      · simp only [onFire]
        exact TFrame.refl' st
      · simp only [resetT]
        exact tframe_ctx_clear_timer hm c hcw ""
  | .afterCount n, c, st, v, wm, win, hcw, hm => by
      refine ⟨?_, ?_, ?_⟩
      · simp only [onElement]
        exact tframe_ctx_add_count hm c hcw (.int 1)
      · simp only [onFire]
        exact TFrame.refl' st
      · simp only [resetT]
        exact tframe_ctx_clear_count hm c hcw
  | .repeatedly t, c, st, v, wm, win, hcw, hm => by
      obtain ⟨he, hf, hr⟩ := trigger_frame w t c st v wm win hcw hm
      refine ⟨?_, ?_, ?_⟩
      · simpa only [onElement] using he
      · simp only [onFire]
        split
        · have hm2 : (onFire adapterOps t wm win c st).2.window_ids = [(w, [1])] := by
            rw [hf.window_ids_eq, hm]
          have hr2 := (trigger_frame w t c (onFire adapterOps t wm win c st).2 v wm win
            hcw hm2).2.2
          exact hf.trans hr2
        · exact hf
      · simpa only [resetT] using hr
  | .afterWatermark early late, c, st, v, wm, win, hcw, hm => by
      have hcw' : ∀ p : String, Ctx.window (.nested c p) = w := fun _ => hcw
      have hst := tframe_ctx_set_timer hm c hcw "" win.wend
      have hmst : (Ctx.set_timer adapterOps c "" win.wend st).window_ids = [(w, [1])] := by
        rw [hst.window_ids_eq, hm]
      cases late with
      | none =>
          cases early with
          | none =>
              refine ⟨?_, ?_, ?_⟩
              · simp only [onElement]
                split
                · exact TFrame.refl' st
                · exact hst
              · simp only [onFire]
                split
                · exact TFrame.refl' st
                · split
                  · exact tframe_ctx_add_late hm c hcw (.bool true)
                  · exact TFrame.refl' st
              · simp only [resetT]
                exact TFrame.refl' st
          | some e =>
              refine ⟨?_, ?_, ?_⟩
              · simp only [onElement]
                split
                · exact TFrame.refl' st
                · exact hst.trans ((trigger_frame w e (.nested c "early")
                    (Ctx.set_timer adapterOps c "" win.wend st) v wm win (hcw' _) hmst).1)
              · simp only [onFire]
                split
                · exact TFrame.refl' st
                · split
                  · exact tframe_ctx_add_late hm c hcw (.bool true)
                  · exact (trigger_frame w e (.nested c "early") st v wm win
                      (hcw' _) hm).2.1
              · simp only [resetT]
                exact (trigger_frame w e (.nested c "early") st v wm win (hcw' _) hm).2.2
      | some l =>
          have hcl := tframe_ctx_clear_late hm c hcw
          have hmcl : (Ctx.clear_state adapterOps c LATE_TAG st).window_ids = [(w, [1])] := by
            rw [hcl.window_ids_eq, hm]
          cases early with
          | none =>
              refine ⟨?_, ?_, ?_⟩
              · simp only [onElement]
                split
                · exact (trigger_frame w l (.nested c "late") st v wm win (hcw' _) hm).1
                · exact hst
              · simp only [onFire]
                split
                · exact (trigger_frame w l (.nested c "late") st v wm win (hcw' _) hm).2.1
                · split
                  · exact tframe_ctx_add_late hm c hcw (.bool true)
                  · exact TFrame.refl' st
              · simp only [resetT]
                exact hcl.trans ((trigger_frame w l (.nested c "late")
                  (Ctx.clear_state adapterOps c LATE_TAG st) v wm win (hcw' _) hmcl).2.2)
          | some e =>
              refine ⟨?_, ?_, ?_⟩
              · simp only [onElement]
                split
                · exact (trigger_frame w l (.nested c "late") st v wm win (hcw' _) hm).1
                · exact hst.trans ((trigger_frame w e (.nested c "early")
                    (Ctx.set_timer adapterOps c "" win.wend st) v wm win (hcw' _) hmst).1)
              · simp only [onFire]
                split
                · exact (trigger_frame w l (.nested c "late") st v wm win (hcw' _) hm).2.1
                · split
                  · exact tframe_ctx_add_late hm c hcw (.bool true)
                  · exact (trigger_frame w e (.nested c "early") st v wm win
                      (hcw' _) hm).2.1
              · simp only [resetT]
                have h2 := (trigger_frame w e (.nested c "early")
                  (Ctx.clear_state adapterOps c LATE_TAG st) v wm win (hcw' _) hmcl).2.2
                have hm2 : (resetT adapterOps e win (.nested c "early")
                    (Ctx.clear_state adapterOps c LATE_TAG st)).window_ids = [(w, [1])] := by
                  rw [h2.window_ids_eq, hmcl]
                have h3 := (trigger_frame w l (.nested c "late")
                  (resetT adapterOps e win (.nested c "early")
                    (Ctx.clear_state adapterOps c LATE_TAG st)) v wm win (hcw' _) hm2).2.2
                exact (hcl.trans h2).trans h3

/-! ### Single-window bucket processing -/

theorem SWAdapter.of_tframe {w : IntervalWindow} {st st' : MergeableStateAdapter}
    {pending : List PyVal} (h : SWAdapter w st pending) (hf : TFrame st st') :
    SWAdapter w st' pending := by
  obtain ⟨hm, hg, cm, hraw, hnd, hel, hto⟩ := h
  obtain ⟨f1, f2, f3, f4⟩ := hf
  obtain ⟨cm', hraw', he, ht, hnd'⟩ := f4 cm hraw
  refine ⟨by rw [f1, hm], by rw [f3]; exact hg, cm', hraw', hnd' hnd, ?_, ?_⟩
  · rw [cellIn, he]; exact hel
  · rw [cellIn, ht]; exact hto

theorem sw_add_element {w : IntervalWindow} {st : MergeableStateAdapter}
    {pending : List PyVal} (v : PyVal) (h : SWAdapter w st pending) :
    SWAdapter w (st.add_state w ELEMENTS v) (pending ++ [v]) := by
  obtain ⟨hm, hg, cm, hraw, hnd, hel, hto⟩ := h
  have hcell : InMemoryUnmergedState.cellOf st.raw_state 1 "elements" = .list pending := by
    simp only [InMemoryUnmergedState.cellOf, hraw, alGet_cons_self, Option.getD_some]
    exact hel
  rw [show ELEMENTS = .listStateTag "elements" from rfl, single_add_state_list hm]
  refine ⟨hm, hg, alSet "elements" (.list (pending ++ [v])) cm, ?_,
    alSet_pairwise_keys hnd, ?_, ?_⟩
  · simp only [InMemoryUnmergedState.add_state, StateTag.tagName, hraw, alGet_cons_self,
      Option.getD_some, hcell]
    simp [alSet]
  · rw [cellIn, alGet_alSet_self]
    rfl
  · rw [cellIn, alGet_alSet_ne _ _ (by decide : ("elements" : String) ≠ "tombstone")]
    exact hto

theorem sw_bucket_fold (t : TriggerFn) (w : IntervalWindow) :
    ∀ (vs : List PyVal) (st : MergeableStateAdapter) (pending : List PyVal),
      SWAdapter w st pending →
      SWAdapter w (vs.foldl (fun s v => onElement adapterOps t v w (Ctx.trigger w)
        (s.add_state w ELEMENTS v)) st) (pending ++ vs) := by
  intro vs
  induction vs with
  | nil => intro st pending h; simpa using h
  | cons v vs ih =>
      intro st pending h
      simp only [List.foldl_cons]
      have h1 := sw_add_element v h
      have h2 : SWAdapter w (onElement adapterOps t v w (Ctx.trigger w)
          (st.add_state w ELEMENTS v)) (pending ++ [v]) :=
        h1.of_tframe ((trigger_frame w t (Ctx.trigger w) _ v .neginf w rfl h1.1).1)
      have h3 := ih _ _ h2
      simpa [List.append_assoc] using h3

theorem sw_get_tombstone {w : IntervalWindow} {st : MergeableStateAdapter}
    {pending : List PyVal} (h : SWAdapter w st pending) :
    (st.get_state w TOMBSTONE).truthy = false := by
  obtain ⟨hm, hg, cm, hraw, hnd, hel, hto⟩ := h
  rw [single_get_tombstone hm]
  have : InMemoryUnmergedState.cellOf st.raw_state 1 "tombstone" = .list [] := by
    simp only [InMemoryUnmergedState.cellOf, hraw, alGet_cons_self, Option.getD_some]
    exact hto
  rw [this]
  decide

theorem sw_get_elements {w : IntervalWindow} {st : MergeableStateAdapter}
    {pending : List PyVal} (h : SWAdapter w st pending) :
    st.get_state w ELEMENTS = .list pending := by
  obtain ⟨hm, hg, cm, hraw, hnd, hel, hto⟩ := h
  rw [single_get_elements hm]
  have : InMemoryUnmergedState.cellOf st.raw_state 1 "elements" = .list pending := by
    simp only [InMemoryUnmergedState.cellOf, hraw, alGet_cons_self, Option.getD_some]
    exact hel
  rw [this]
  rfl

theorem tomb_get_tombstone {w : IntervalWindow} {st : MergeableStateAdapter}
    (h : TombAdapter w st) : (st.get_state w TOMBSTONE).truthy = true := by
  obtain ⟨hm, hg, hraw⟩ := h
  rw [single_get_tombstone hm]
  have : InMemoryUnmergedState.cellOf st.raw_state 1 "tombstone" = .list [.int 1] := by
    simp [InMemoryUnmergedState.cellOf, hraw, alGet_cons_self, alGet]
  rw [this]
  decide

theorem tomb_get_elements {w : IntervalWindow} {st : MergeableStateAdapter}
    (h : TombAdapter w st) : st.get_state w ELEMENTS = .list [] := by
  obtain ⟨hm, hg, hraw⟩ := h
  rw [single_get_elements hm]
  have : InMemoryUnmergedState.cellOf st.raw_state 1 "elements" = .list [] := by
    simp [InMemoryUnmergedState.cellOf, hraw, alGet_cons_self, alGet]
  rw [this]
  rfl

theorem single_clear_all {a : MergeableStateAdapter} {w : IntervalWindow}
    (hm : a.window_ids = [(w, [1])]) :
    a.clear_state w Option.none
      = { raw_state :=
            (a.raw_state.clear_state 1 Option.none).set_global_state WINDOW_IDS []
          window_ids := []
          counter := a.counter } := by
  simp only [MergeableStateAdapter.clear_state, single_getIds hm, List.foldl_cons,
    List.foldl_nil, MergeableStateAdapter.persistWindowIds, hm]
  simp [alRemove]

theorem add_state_alloc_combining (a2 : MergeableStateAdapter) (w : IntervalWindow)
    (name : String) (fn : CombineFn) (v : PyVal) (hmap : a2.window_ids = []) :
    a2.add_state w (.combiningValueStateTag name fn) v
      = { raw_state :=
            (a2.raw_state.set_global_state WINDOW_IDS [(w, [1])]).add_state 1
              (.combiningValueStateTag name fn) v
          window_ids := [(w, [1])]
          counter := some 1 } := by
  have hnone : alGet w a2.window_ids = Option.none := by rw [hmap]; rfl
  have hfst : (a2.getNextCounter).1 = 1 := by
    simp [MergeableStateAdapter.getNextCounter, hmap]
  simp only [MergeableStateAdapter.add_state]
  rw [getId_alloc a2 w hnone]
  simp only [MergeableStateAdapter.persistWindowIds, hfst, hmap]
  simp [alSet]

/-- `_output(window, True, state)` on a single-window adapter: the pane
carries the `ELEMENTS` read, all window state is dropped, and the
`TOMBSTONE` counter is set on the freshly reallocated id 1; timers are left
alone. -/
theorem output_finished (d : GeneralTriggerDriver) {w : IntervalWindow}
    {st : MergeableStateAdapter} (cm : List (String × PyVal))
    (hm : st.window_ids = [(w, [1])]) (hraw : st.raw_state.state = [(1, cm)]) :
    ∃ st', d.outputPane w true st = ((w, st.get_state w ELEMENTS), st') ∧
      TombAdapter w st' ∧ st'.raw_state.timers = st.raw_state.timers := by
  have h0 : d.outputPane w true st
      = ((w, st.get_state w ELEMENTS),
          (st.clear_state w Option.none).add_state w TOMBSTONE (.int 1)) := rfl
  rw [h0, single_clear_all hm,
    show TOMBSTONE = StateTag.combiningValueStateTag "tombstone" CountCombineFn from rfl,
    add_state_alloc_combining _ w "tombstone" CountCombineFn (.int 1) rfl]
  refine ⟨_, rfl, ⟨rfl, ?_, ?_⟩, rfl⟩
  · simp only [InMemoryUnmergedState.set_global_state, InMemoryUnmergedState.add_state]
    rw [show (WINDOW_IDS).tagName = "window_ids" from rfl]
    rw [alGet_alSet_self]
    rfl
  · simp only [InMemoryUnmergedState.add_state, InMemoryUnmergedState.set_global_state,
      InMemoryUnmergedState.clear_state, InMemoryUnmergedState.cellOf, hraw,
      StateTag.tagName]
    simp [alRemove, alSet, alGet]

/-- `_output(window, False, state)` in `DISCARDING` mode on a mid-call
single-window adapter: the pane carries the pending elements and the
`elements` cell alone is cleared. -/
theorem output_not_finished_discarding (d : GeneralTriggerDriver)
    (hmode : d.accumulation_mode = .discarding) {w : IntervalWindow}
    {st : MergeableStateAdapter} {pending : List PyVal} (h : SWAdapter w st pending) :
    ∃ st', d.outputPane w false st = ((w, .list pending), st') ∧ SWAdapter w st' [] := by
  obtain ⟨hm, hg, cm, hraw, hnd, hel, hto⟩ := h
  have hget : st.get_state w ELEMENTS = .list pending :=
    sw_get_elements ⟨hm, hg, cm, hraw, hnd, hel, hto⟩
  have h0 : d.outputPane w false st
      = ((w, st.get_state w ELEMENTS),
          if d.accumulation_mode = .discarding then st.clear_state w (some ELEMENTS)
          else st) := rfl
  rw [h0, hget, hmode, if_pos rfl,
    show ELEMENTS = StateTag.listStateTag "elements" from rfl, single_clear_state_tag hm]
  refine ⟨_, rfl, hm, hg, alRemove "elements" cm, ?_, hnd.sublist (alRemove_sublist _ _),
    ?_, ?_⟩
  · simp only [InMemoryUnmergedState.clear_state, hraw, alGet_cons_self, Option.getD_some,
      StateTag.tagName]
    simp [alSet]
  · rw [cellIn, alGet_alRemove_self_nodup hnd]
    rfl
  · rw [cellIn, alGet_alRemove_ne _ (by decide : ("elements" : String) ≠ "tombstone")]
    exact hto

/-- Firing phase of the per-window loop, for any not-tombstoned pre-state
whose post-element-fold state is a live single-window adapter holding `P`:
either no fire and the fold state stands, or one pane `(w, P)` is emitted
and the window is reset (`DISCARDING`) or tombstoned (finished). -/
theorem bucket_step_gen (d : GeneralTriggerDriver)
    (hmode : d.accumulation_mode = .discarding) {w : IntervalWindow}
    {st0 : MergeableStateAdapter} (vs : List PyVal) (panes0 : List Pane) (P : List PyVal)
    (htomb : (st0.get_state w TOMBSTONE).truthy = false)
    (hfold : SWAdapter w (vs.foldl (fun s v => onElement adapterOps d.trigger_fn v w
      (Ctx.trigger w) (s.add_state w ELEMENTS v)) st0) P) :
    (∃ st', d.elementBucketStep (panes0, st0) (w, vs) = (panes0, st') ∧
      SWAdapter w st' P) ∨
    (∃ st', d.elementBucketStep (panes0, st0) (w, vs)
        = (panes0 ++ [(w, .list P)], st') ∧
      (SWAdapter w st' [] ∨ TombAdapter w st')) := by
  have hnotomb : ¬((st0.get_state w TOMBSTONE).truthy = true) := by simp [htomb]
  have h0 : d.elementBucketStep (panes0, st0) (w, vs)
      = (if shouldFire adapterOps d.trigger_fn Watermark.neginf w (Ctx.trigger w)
            (vs.foldl (fun s v => onElement adapterOps d.trigger_fn v w (Ctx.trigger w)
              (s.add_state w ELEMENTS v)) st0) then
          (panes0 ++
            [(d.outputPane w
              (onFire adapterOps d.trigger_fn Watermark.neginf w (Ctx.trigger w)
                (vs.foldl (fun s v => onElement adapterOps d.trigger_fn v w (Ctx.trigger w)
                  (s.add_state w ELEMENTS v)) st0)).1
              (onFire adapterOps d.trigger_fn Watermark.neginf w (Ctx.trigger w)
                (vs.foldl (fun s v => onElement adapterOps d.trigger_fn v w (Ctx.trigger w)
                  (s.add_state w ELEMENTS v)) st0)).2).1],
            (d.outputPane w
              (onFire adapterOps d.trigger_fn Watermark.neginf w (Ctx.trigger w)
                (vs.foldl (fun s v => onElement adapterOps d.trigger_fn v w (Ctx.trigger w)
                  (s.add_state w ELEMENTS v)) st0)).1
              (onFire adapterOps d.trigger_fn Watermark.neginf w (Ctx.trigger w)
                (vs.foldl (fun s v => onElement adapterOps d.trigger_fn v w (Ctx.trigger w)
                  (s.add_state w ELEMENTS v)) st0)).2).2)
        else (panes0,
          vs.foldl (fun s v => onElement adapterOps d.trigger_fn v w (Ctx.trigger w)
            (s.add_state w ELEMENTS v)) st0)) := by
    simp only [GeneralTriggerDriver.elementBucketStep]
    rw [if_neg hnotomb]
  rw [h0]
  cases hfire : shouldFire adapterOps d.trigger_fn Watermark.neginf w (Ctx.trigger w)
      (vs.foldl (fun s v => onElement adapterOps d.trigger_fn v w (Ctx.trigger w)
        (s.add_state w ELEMENTS v)) st0) with
  | false =>
      simp only [Bool.false_eq_true, if_false]
      exact Or.inl ⟨_, rfl, hfold⟩
  | true =>
      simp only [if_true]
      have hframe := (trigger_frame w d.trigger_fn (Ctx.trigger w) _ PyVal.none
        Watermark.neginf w rfl hfold.1).2.1
      have hsw2 : SWAdapter w
          (onFire adapterOps d.trigger_fn Watermark.neginf w (Ctx.trigger w)
            (vs.foldl (fun s v => onElement adapterOps d.trigger_fn v w (Ctx.trigger w)
              (s.add_state w ELEMENTS v)) st0)).2
          P := hfold.of_tframe hframe
      obtain ⟨hm2, hg2, cm2, hraw2, hnd2, hel2, hto2⟩ := hsw2
      cases hfin : (onFire adapterOps d.trigger_fn Watermark.neginf w (Ctx.trigger w)
          (vs.foldl (fun s v => onElement adapterOps d.trigger_fn v w (Ctx.trigger w)
            (s.add_state w ELEMENTS v)) st0)).1 with
      | true =>
          obtain ⟨st', hout, htombA, _⟩ := output_finished d cm2 hm2 hraw2
          have hget : (onFire adapterOps d.trigger_fn Watermark.neginf w (Ctx.trigger w)
              (vs.foldl (fun s v => onElement adapterOps d.trigger_fn v w (Ctx.trigger w)
                (s.add_state w ELEMENTS v)) st0)).2.get_state w ELEMENTS
              = .list P :=
            sw_get_elements ⟨hm2, hg2, cm2, hraw2, hnd2, hel2, hto2⟩
          rw [hout, hget]
          exact Or.inr ⟨st', rfl, Or.inr htombA⟩
      | false =>
          obtain ⟨st', hout, hswA⟩ := output_not_finished_discarding d hmode
            ⟨hm2, hg2, cm2, hraw2, hnd2, hel2, hto2⟩
          rw [hout]
          exact Or.inr ⟨st', rfl, Or.inl hswA⟩

theorem w2e_fold_aux (w : IntervalWindow) : ∀ (vs es : List PyVal),
    List.foldl (fun acc wv => wv.2.foldl (fun acc2 window =>
        alSet window (((alGet window acc2).getD []) ++ [wv.1]) acc2) acc)
      [(w, es)] (vs.map fun v => (v, [w])) = [(w, es ++ vs)] := by
  intro vs
  induction vs with
  | nil => intro es; simp
  | cons v vs ih =>
      intro es
      simp only [List.map_cons, List.foldl_cons, List.foldl_nil]
      rw [show (alGet w [(w, es)]).getD [] = es from by simp [alGet]]
      rw [show alSet w (es ++ [v]) [(w, es)] = [(w, es ++ [v])] from by simp [alSet]]
      rw [ih (es ++ [v])]
      simp

theorem w2e_single (w : IntervalWindow) (vs : List PyVal) :
    windowsToElements (vs.map fun v => (v, [w]))
      = if vs.isEmpty then [] else [(w, vs)] := by
  cases vs with
  | nil => rfl
  | cons v vs' =>
      simp only [windowsToElements, List.map_cons, List.foldl_cons, List.foldl_nil,
        List.isEmpty_cons]
      rw [show alSet w (((alGet w ([] : List (IntervalWindow × List PyVal))).getD [])
          ++ [v]) [] = [(w, [v])] from rfl]
      rw [w2e_fold_aux w vs' [v]]
      simp

theorem mergePhase_nil (d : GeneralTriggerDriver) (st : MergeableStateAdapter) :
    d.mergePhase st [] = (st, []) := rfl

theorem mergePhase_known (d : GeneralTriggerDriver) (st : MergeableStateAdapter)
    (w : IntervalWindow) (vs : List PyVal)
    (hk : st.known_windows.contains w = true) :
    d.mergePhase st [(w, vs)] = (st, [(w, vs)]) := by
  simp only [GeneralTriggerDriver.mergePhase, List.map_cons, List.map_nil, List.all_cons,
    List.all_nil, hk, Bool.and_true]
  simp

theorem mergePhase_fresh (d : GeneralTriggerDriver) (st : MergeableStateAdapter)
    (w : IntervalWindow) (vs : List PyVal)
    (hwfn : d.window_fn = noMergeWindowFn)
    (hk : st.known_windows.contains w = false) :
    d.mergePhase st [(w, vs)] = (st, [(w, vs)]) := by
  simp only [GeneralTriggerDriver.mergePhase, List.map_cons, List.map_nil, List.all_cons,
    List.all_nil, hk, Bool.and_true, Bool.false_eq_true, if_false, hwfn, noMergeWindowFn,
    List.foldl_nil, List.foldl_cons, chaseMergedAway, List.length_nil]
  simp [alGet, alSet]

theorem sw_reinit {w : IntervalWindow} {st : MergeableStateAdapter} {pending : List PyVal}
    (h : SWAdapter w st pending) : SWActive w st.raw_state pending := by
  obtain ⟨hm, hg, cm, hraw, hnd, hel, hto⟩ := h
  exact ⟨by rw [init_window_ids]; exact hg, hg, cm, hraw, hnd, hel, hto⟩

theorem tomb_reinit {w : IntervalWindow} {st : MergeableStateAdapter}
    (h : TombAdapter w st) : SWTomb w st.raw_state := by
  obtain ⟨hm, hg, hraw⟩ := h
  exact ⟨by rw [init_window_ids]; exact hg, hg, hraw⟩

theorem first_add_state (w : IntervalWindow) (v : PyVal) :
    (MergeableStateAdapter.init emptyRaw).add_state w ELEMENTS v
      = { raw_state :=
            { timers := []
              state := [(1, [("elements", .list [v])])]
              globalState := [("window_ids", [(w, [1])])] }
          window_ids := [(w, [1])]
          counter := some 1 } := rfl

theorem first_add_sw (w : IntervalWindow) (v : PyVal) :
    SWAdapter w ((MergeableStateAdapter.init emptyRaw).add_state w ELEMENTS v) [v] := by
  rw [first_add_state]
  refine ⟨rfl, by simp [alGet], [("elements", .list [v])], rfl, by simp, ?_, ?_⟩
  · simp [cellIn, alGet]
  · simp [cellIn, alGet]

theorem empty_tombstone_false (w : IntervalWindow) :
    ((MergeableStateAdapter.init emptyRaw).get_state w TOMBSTONE).truthy = false := rfl

theorem empty_known_false (w : IntervalWindow) :
    (MergeableStateAdapter.init emptyRaw).known_windows.contains w = false := rfl

/-- `process_elements` of a bundle for `w` from a live single-window state:
either no pane is emitted and the elements accumulate, or exactly the pane
of everything accumulated is emitted and the window is reset or
tombstoned. -/
theorem pe_sw (d : GeneralTriggerDriver) (hwfn : d.window_fn = noMergeWindowFn)
    (hmode : d.accumulation_mode = .discarding) (w : IntervalWindow) (vs : List PyVal)
    (s : RawState) (pending : List PyVal) (hsw : SWActive w s pending) :
    (∃ s', d.process_elements (vs.map fun v => (v, [w])) s = ([], s') ∧
      SWActive w s' (pending ++ vs)) ∨
    (∃ s', d.process_elements (vs.map fun v => (v, [w])) s
        = ([(w, .list (pending ++ vs))], s') ∧ (SWActive w s' [] ∨ SWTomb w s')) := by
  have hswA : SWAdapter w (MergeableStateAdapter.init s) pending := hsw
  cases vs with
  | nil =>
      refine Or.inl ⟨s, ?_, by simpa using hsw⟩
      simp only [GeneralTriggerDriver.process_elements, List.map_nil]
      rw [show windowsToElements [] = ([] : List (IntervalWindow × List PyVal)) from rfl,
        mergePhase_nil]
      rfl
  | cons v vs' =>
      have hk : (MergeableStateAdapter.init s).known_windows.contains w = true := by
        rw [single_known_windows hswA.1]
        simp
      have htomb := sw_get_tombstone hswA
      have hfold := sw_bucket_fold d.trigger_fn w (v :: vs')
        (MergeableStateAdapter.init s) pending hswA
      have hbs := bucket_step_gen d hmode (v :: vs') [] (pending ++ (v :: vs'))
        htomb hfold
      have hpe : d.process_elements ((v :: vs').map fun x => (x, [w])) s
          = ((d.elementBucketStep ([], MergeableStateAdapter.init s) (w, v :: vs')).1,
             (d.elementBucketStep ([], MergeableStateAdapter.init s) (w, v :: vs')).2.raw_state) := by
        simp only [GeneralTriggerDriver.process_elements]
        rw [w2e_single w (v :: vs')]
        simp only [List.isEmpty_cons, Bool.false_eq_true, if_false]
        rw [mergePhase_known d _ w (v :: vs') hk]
        simp only [List.foldl_cons, List.foldl_nil]
      rcases hbs with ⟨st', heq, hsw'⟩ | ⟨st', heq, hcase⟩
      · refine Or.inl ⟨st'.raw_state, ?_, sw_reinit hsw'⟩
        rw [hpe, heq]
      · refine Or.inr ⟨st'.raw_state, ?_, ?_⟩
        · rw [hpe, heq]; rfl
        · rcases hcase with h | h
          · exact Or.inl (sw_reinit h)
          · exact Or.inr (tomb_reinit h)

/-- `process_elements` of a first bundle for `w` from the empty state. -/
theorem pe_first (d : GeneralTriggerDriver) (hwfn : d.window_fn = noMergeWindowFn)
    (hmode : d.accumulation_mode = .discarding) (w : IntervalWindow) (v : PyVal)
    (vs' : List PyVal) :
    (∃ s', d.process_elements ((v :: vs').map fun x => (x, [w])) emptyRaw = ([], s') ∧
      SWActive w s' (v :: vs')) ∨
    (∃ s', d.process_elements ((v :: vs').map fun x => (x, [w])) emptyRaw
        = ([(w, .list (v :: vs'))], s') ∧ (SWActive w s' [] ∨ SWTomb w s')) := by
  have hsw1 : SWAdapter w (onElement adapterOps d.trigger_fn v w (Ctx.trigger w)
      ((MergeableStateAdapter.init emptyRaw).add_state w ELEMENTS v)) [v] :=
    (first_add_sw w v).of_tframe
      ((trigger_frame w d.trigger_fn (Ctx.trigger w) _ v .neginf w rfl
        (first_add_sw w v).1).1)
  have hfold : SWAdapter w ((v :: vs').foldl
      (fun s x => onElement adapterOps d.trigger_fn x w (Ctx.trigger w)
        (s.add_state w ELEMENTS x)) (MergeableStateAdapter.init emptyRaw)) (v :: vs') := by
    simp only [List.foldl_cons]
    have := sw_bucket_fold d.trigger_fn w vs' _ [v] hsw1
    simpa using this
  have hbs := bucket_step_gen d hmode (v :: vs') [] (v :: vs')
    (empty_tombstone_false w) hfold
  have hpe : d.process_elements ((v :: vs').map fun x => (x, [w])) emptyRaw
      = ((d.elementBucketStep ([], MergeableStateAdapter.init emptyRaw) (w, v :: vs')).1,
         (d.elementBucketStep ([], MergeableStateAdapter.init emptyRaw)
           (w, v :: vs')).2.raw_state) := by
    simp only [GeneralTriggerDriver.process_elements]
    rw [w2e_single w (v :: vs')]
    simp only [List.isEmpty_cons, Bool.false_eq_true, if_false]
    rw [mergePhase_fresh d _ w (v :: vs') hwfn (empty_known_false w)]
    simp only [List.foldl_cons, List.foldl_nil]
  rcases hbs with ⟨st', heq, hsw'⟩ | ⟨st', heq, hcase⟩
  · refine Or.inl ⟨st'.raw_state, ?_, sw_reinit hsw'⟩
    rw [hpe, heq]
  · refine Or.inr ⟨st'.raw_state, ?_, ?_⟩
    · rw [hpe, heq]; rfl
    · rcases hcase with h | h
      · exact Or.inl (sw_reinit h)
      · exact Or.inr (tomb_reinit h)

theorem pe_empty_batch (d : GeneralTriggerDriver) (s : RawState) :
    d.process_elements [] s = ([], s) := by
  simp only [GeneralTriggerDriver.process_elements]
  rw [show windowsToElements [] = ([] : List (IntervalWindow × List PyVal)) from rfl,
    mergePhase_nil]
  rfl

/-- A tombstoned window's bundles are skipped wholesale: no pane and the
state unchanged. -/
theorem pe_skip (d : GeneralTriggerDriver) (w : IntervalWindow) (vs : List PyVal)
    (s : RawState)
    (hk : (MergeableStateAdapter.init s).known_windows.contains w = true)
    (htomb : ((MergeableStateAdapter.init s).get_state w TOMBSTONE).truthy = true) :
    d.process_elements (vs.map fun v => (v, [w])) s = ([], s) := by
  cases vs with
  | nil => exact pe_empty_batch d s
  | cons v vs' =>
      simp only [GeneralTriggerDriver.process_elements]
      rw [w2e_single w (v :: vs')]
      simp only [List.isEmpty_cons, Bool.false_eq_true, if_false]
      rw [mergePhase_known d _ w (v :: vs') hk]
      simp only [List.foldl_cons, List.foldl_nil, GeneralTriggerDriver.elementBucketStep,
        htomb, if_pos]
      rfl

/-- A timer for a tombstoned window yields nothing and changes nothing. -/
theorem pt_skip (d : GeneralTriggerDriver) (tid : ℕ) (ts : ℤ) (s : RawState)
    (w : IntervalWindow)
    (hgw : (MergeableStateAdapter.init s).get_window tid = .ok w)
    (htomb : ((MergeableStateAdapter.init s).get_state w TOMBSTONE).truthy = true) :
    d.process_timer tid ts s = .ok ([], s) := by
  simp only [GeneralTriggerDriver.process_timer, hgw]
  rw [if_pos htomb]
  rfl

/-! ### AfterCount: concrete single-window run -/

theorem acActiveRaw_eq (w : IntervalWindow) (es : List PyVal) :
    acActiveRaw w es = acRaw w es (es.map fun _ => .int 1) := rfl

theorem init_acRaw (w : IntervalWindow) (es cs : List PyVal) :
    MergeableStateAdapter.init (acRaw w es cs) = acAdapter w es cs Option.none := rfl

theorem ac_add_elements (w : IntervalWindow) (es cs : List PyVal) (v : PyVal)
    (c : Option ℕ) :
    (acAdapter w es cs c).add_state w ELEMENTS v = acAdapter w (es ++ [v]) cs c := by
  rw [show ELEMENTS = StateTag.listStateTag "elements" from rfl,
    single_add_state_list rfl "elements" v]
  rfl

theorem ac_step (n : ℤ) (w : IntervalWindow) (es cs : List PyVal) (v : PyVal)
    (c : Option ℕ) :
    onElement adapterOps (.afterCount n) v w (Ctx.trigger w)
      ((acAdapter w es cs c).add_state w ELEMENTS v)
      = acAdapter w (es ++ [v]) (cs ++ [.int 1]) c := by
  rw [ac_add_elements]
  simp only [onElement]
  rw [show Ctx.add_state adapterOps (Ctx.trigger w) COUNT_TAG (.int 1)
        (acAdapter w (es ++ [v]) cs c)
      = (acAdapter w (es ++ [v]) cs c).add_state w COUNT_TAG (.int 1) from rfl]
  rw [show COUNT_TAG = StateTag.combiningValueStateTag "count" CountCombineFn from rfl,
    single_add_state rfl "count" CountCombineFn (.int 1)]
  rfl

theorem ac_fold (n : ℤ) (w : IntervalWindow) :
    ∀ (vs es cs : List PyVal) (c : Option ℕ),
      vs.foldl (fun s v => onElement adapterOps (.afterCount n) v w (Ctx.trigger w)
          (s.add_state w ELEMENTS v)) (acAdapter w es cs c)
        = acAdapter w (es ++ vs) (cs ++ vs.map fun _ => .int 1) c := by
  intro vs
  induction vs with
  | nil => intro es cs c; simp
  | cons v vs ih =>
      intro es cs c
      simp only [List.foldl_cons, ac_step, List.map_cons]
      rw [ih]
      simp

theorem ac_first_step (n : ℤ) (w : IntervalWindow) (v : PyVal) :
    onElement adapterOps (.afterCount n) v w (Ctx.trigger w)
      ((MergeableStateAdapter.init emptyRaw).add_state w ELEMENTS v)
      = acAdapter w [v] [.int 1] (some 1) := by
  simp only [onElement]
  rw [show Ctx.add_state adapterOps (Ctx.trigger w) COUNT_TAG (.int 1)
        ((MergeableStateAdapter.init emptyRaw).add_state w ELEMENTS v)
      = ((MergeableStateAdapter.init emptyRaw).add_state w ELEMENTS v).add_state w
          COUNT_TAG (.int 1) from rfl]
  rw [first_add_state,
    show COUNT_TAG = StateTag.combiningValueStateTag "count" CountCombineFn from rfl,
    single_add_state rfl "count" CountCombineFn (.int 1)]
  rfl

theorem single_get_count {a : MergeableStateAdapter} {w : IntervalWindow}
    (hm : a.window_ids = [(w, [1])]) :
    a.get_state w COUNT_TAG = .int ((a.raw_state.cellOf 1 "count").elems).length := by
  simp only [MergeableStateAdapter.get_state, COUNT_TAG, single_getIds hm, List.map_cons,
    List.map_nil, List.isEmpty_cons, List.length_cons, List.length_nil]
  simp only [InMemoryUnmergedState.get_state, StateTag.tagName]
  rw [if_pos trivial]
  simp only [List.headI]
  have : CountCombineFn.extractOutput (CountCombineFn.applyFn
      ((a.raw_state.cellOf 1 "count").elems))
      = CountCombineFn.applyFn ((a.raw_state.cellOf 1 "count").elems) := rfl
  rw [this, countApply]
  simp

theorem ac_get_count (w : IntervalWindow) (es cs : List PyVal) (c : Option ℕ) :
    (acAdapter w es cs c).get_state w COUNT_TAG = .int cs.length := by
  rw [single_get_count rfl]
  have : ((acAdapter w es cs c).raw_state.cellOf 1 "count").elems = cs := rfl
  rw [this]

theorem ac_get_elements (w : IntervalWindow) (es cs : List PyVal) (c : Option ℕ) :
    (acAdapter w es cs c).get_state w ELEMENTS = .list es := by
  rw [single_get_elements rfl]
  have : ((acAdapter w es cs c).raw_state.cellOf 1 "elements").elems = es := rfl
  rw [this]

theorem ac_tomb_false (w : IntervalWindow) (es cs : List PyVal) (c : Option ℕ) :
    ((acAdapter w es cs c).get_state w TOMBSTONE).truthy = false := by
  rw [single_get_tombstone rfl]
  rfl

theorem ac_shouldFire (n : ℤ) (w : IntervalWindow) (wm : Watermark) (es cs : List PyVal)
    (c : Option ℕ) :
    shouldFire adapterOps (.afterCount n) wm w (Ctx.trigger w) (acAdapter w es cs c)
      = decide (n ≤ (cs.length : ℤ)) := by
  simp only [shouldFire]
  rw [show Ctx.get_state adapterOps (Ctx.trigger w) COUNT_TAG (acAdapter w es cs c)
      = (acAdapter w es cs c).get_state w COUNT_TAG from rfl]
  rw [ac_get_count]
  rfl

theorem ac_onFire (n : ℤ) (wm : Watermark) (w : IntervalWindow) (c : Ctx)
    (s : MergeableStateAdapter) :
    onFire adapterOps (.afterCount n) wm w c s = (true, s) := by
  simp only [onFire]

theorem ac_output_true (d : GeneralTriggerDriver) (w : IntervalWindow)
    (es cs : List PyVal) (c : Option ℕ) :
    d.outputPane w true (acAdapter w es cs c)
      = ((w, .list es), ⟨tombRaw w [], [(w, [1])], some 1⟩) := by
  have h0 : d.outputPane w true (acAdapter w es cs c)
      = ((w, (acAdapter w es cs c).get_state w ELEMENTS),
         ((acAdapter w es cs c).clear_state w Option.none).add_state w TOMBSTONE
           (.int 1)) := rfl
  rw [h0, ac_get_elements, single_clear_all rfl,
    show TOMBSTONE = StateTag.combiningValueStateTag "tombstone" CountCombineFn from rfl,
    add_state_alloc_combining _ w "tombstone" CountCombineFn (.int 1) rfl]
  rfl

theorem tombRaw_swtomb (w : IntervalWindow) (tm : List (ℕ × List (String × ℤ))) :
    SWTomb w (tombRaw w tm) := ⟨rfl, rfl, rfl⟩

theorem tomb_pe (d : GeneralTriggerDriver) (w : IntervalWindow) (vs : List PyVal)
    (s : RawState) (ht : SWTomb w s) :
    d.process_elements (vs.map fun v => (v, [w])) s = ([], s) :=
  pe_skip d w vs s (by rw [single_known_windows ht.1]; simp) (tomb_get_tombstone ht)

theorem tomb_pt (d : GeneralTriggerDriver) (ts : ℤ) (s : RawState) (w : IntervalWindow)
    (ht : SWTomb w s) : d.process_timer 1 ts s = .ok ([], s) :=
  pt_skip d 1 ts s w (single_get_window ht.1) (tomb_get_tombstone ht)

theorem tomb_runBatches (d : GeneralTriggerDriver) (w : IntervalWindow) :
    ∀ (batches : List (List PyVal)) (s : RawState), SWTomb w s →
      runBatches d w s batches = ([], s) := by
  intro batches
  induction batches with
  | nil => intro s _; rfl
  | cons vs rest ih =>
      intro s ht
      simp only [runBatches, tomb_pe d w vs s ht, ih s ht]
      rfl

theorem tomb_runCalls (d : GeneralTriggerDriver) (w : IntervalWindow) :
    ∀ (calls : List DriverCall) (s : RawState), SWTomb w s →
      runCalls d w s calls = .ok ([], s) := by
  intro calls
  induction calls with
  | nil => intro s _; rfl
  | cons c rest ih =>
      intro s ht
      cases c with
      | elemsOf vs =>
          simp only [runCalls, runCall, tomb_pe d w vs s ht, ih s ht]
          rfl
      | timerAt ts =>
          simp only [runCalls, runCall, tomb_pt d ts s w ht, ih s ht]
          rfl

theorem ac_pe (n : ℤ) (w : IntervalWindow) (es cs : List PyVal) (v : PyVal)
    (vs : List PyVal) :
    (acd n).process_elements ((v :: vs).map fun x => (x, [w])) (acRaw w es cs)
      = if n ≤ ((cs.length + (v :: vs).length : ℕ) : ℤ) then
          ([(w, .list (es ++ v :: vs))], tombRaw w [])
        else ([], acRaw w (es ++ v :: vs) (cs ++ (v :: vs).map fun _ => .int 1)) := by
  have hk : (MergeableStateAdapter.init (acRaw w es cs)).known_windows.contains w
      = true := by
    have hm : (MergeableStateAdapter.init (acRaw w es cs)).window_ids = [(w, [1])] := rfl
    rw [single_known_windows hm]
    simp
  have hpe : (acd n).process_elements ((v :: vs).map fun x => (x, [w])) (acRaw w es cs)
      = (((acd n).elementBucketStep ([], MergeableStateAdapter.init (acRaw w es cs))
           (w, v :: vs)).1,
         ((acd n).elementBucketStep ([], MergeableStateAdapter.init (acRaw w es cs))
           (w, v :: vs)).2.raw_state) := by
    simp only [GeneralTriggerDriver.process_elements]
    rw [w2e_single w (v :: vs)]
    simp only [List.isEmpty_cons, Bool.false_eq_true, if_false]
    rw [mergePhase_known _ _ w (v :: vs) hk]
    simp only [List.foldl_cons, List.foldl_nil]
  have hnotomb : ¬(((MergeableStateAdapter.init (acRaw w es cs)).get_state w
      TOMBSTONE).truthy = true) := by
    rw [init_acRaw]
    simp [ac_tomb_false]
  have htrig : (acd n).trigger_fn = .afterCount n := rfl
  have hbs : (acd n).elementBucketStep ([], MergeableStateAdapter.init (acRaw w es cs))
      (w, v :: vs)
      = (if shouldFire adapterOps (.afterCount n) Watermark.neginf w (Ctx.trigger w)
            (acAdapter w (es ++ v :: vs) (cs ++ (v :: vs).map fun _ => .int 1)
              Option.none) then
          ([((acd n).outputPane w true (acAdapter w (es ++ v :: vs)
              (cs ++ (v :: vs).map fun _ => .int 1) Option.none)).1],
           ((acd n).outputPane w true (acAdapter w (es ++ v :: vs)
              (cs ++ (v :: vs).map fun _ => .int 1) Option.none)).2)
        else ([], acAdapter w (es ++ v :: vs) (cs ++ (v :: vs).map fun _ => .int 1)
          Option.none)) := by
    simp only [GeneralTriggerDriver.elementBucketStep]
    rw [if_neg hnotomb]
    rw [show (MergeableStateAdapter.init (acRaw w es cs)) = acAdapter w es cs Option.none
      from rfl]
    rw [show ∀ s : MergeableStateAdapter,
        (v :: vs).foldl (fun s x => onElement adapterOps (acd n).trigger_fn x w
          (Ctx.trigger w) (s.add_state w ELEMENTS x)) s
        = (v :: vs).foldl (fun s x => onElement adapterOps (.afterCount n) x w
          (Ctx.trigger w) (s.add_state w ELEMENTS x)) s from fun _ => rfl]
    rw [ac_fold]
    rw [show shouldFire adapterOps (acd n).trigger_fn Watermark.neginf w (Ctx.trigger w)
          (acAdapter w (es ++ v :: vs) (cs ++ (v :: vs).map fun _ => .int 1) Option.none)
        = shouldFire adapterOps (.afterCount n) Watermark.neginf w (Ctx.trigger w)
          (acAdapter w (es ++ v :: vs) (cs ++ (v :: vs).map fun _ => .int 1) Option.none)
      from rfl]
    cases hfire : shouldFire adapterOps (.afterCount n) Watermark.neginf w (Ctx.trigger w)
        (acAdapter w (es ++ v :: vs) (cs ++ (v :: vs).map fun _ => .int 1) Option.none)
    · simp
    · simp only [if_true]
      rw [show onFire adapterOps (acd n).trigger_fn Watermark.neginf w (Ctx.trigger w)
            (acAdapter w (es ++ v :: vs) (cs ++ (v :: vs).map fun _ => .int 1)
              Option.none)
          = onFire adapterOps (.afterCount n) Watermark.neginf w (Ctx.trigger w)
            (acAdapter w (es ++ v :: vs) (cs ++ (v :: vs).map fun _ => .int 1)
              Option.none) from rfl]
      rw [ac_onFire]
      simp
  rw [hpe, hbs, ac_shouldFire, ac_output_true]
  have hlen : ((cs ++ (v :: vs).map fun _ => PyVal.int 1).length : ℤ)
      = ((cs.length + (v :: vs).length : ℕ) : ℤ) := by
    simp
  rw [hlen]
  cases hc : decide (n ≤ ((cs.length + (v :: vs).length : ℕ) : ℤ))
  · have hn : ¬ (n ≤ ((cs.length + (v :: vs).length : ℕ) : ℤ)) := of_decide_eq_false hc
    rw [if_neg hn]
    rfl
  · have hn : n ≤ ((cs.length + (v :: vs).length : ℕ) : ℤ) := of_decide_eq_true hc
    rw [if_pos hn]
    rfl

theorem ac_pe_first (n : ℤ) (w : IntervalWindow) (v : PyVal) (vs : List PyVal) :
    (acd n).process_elements ((v :: vs).map fun x => (x, [w])) emptyRaw
      = if n ≤ (((v :: vs).length : ℕ) : ℤ) then
          ([(w, .list (v :: vs))], tombRaw w [])
        else ([], acActiveRaw w (v :: vs)) := by
  have hpe : (acd n).process_elements ((v :: vs).map fun x => (x, [w])) emptyRaw
      = (((acd n).elementBucketStep ([], MergeableStateAdapter.init emptyRaw)
           (w, v :: vs)).1,
         ((acd n).elementBucketStep ([], MergeableStateAdapter.init emptyRaw)
           (w, v :: vs)).2.raw_state) := by
    simp only [GeneralTriggerDriver.process_elements]
    rw [w2e_single w (v :: vs)]
    simp only [List.isEmpty_cons, Bool.false_eq_true, if_false]
    rw [mergePhase_fresh (acd n) _ w (v :: vs) rfl (empty_known_false w)]
    simp only [List.foldl_cons, List.foldl_nil]
  have hnotomb : ¬(((MergeableStateAdapter.init emptyRaw).get_state w
      TOMBSTONE).truthy = true) := by
    rw [empty_tombstone_false w]
    simp
  have hfold : (v :: vs).foldl (fun s x => onElement adapterOps (.afterCount n) x w
        (Ctx.trigger w) (s.add_state w ELEMENTS x)) (MergeableStateAdapter.init emptyRaw)
      = acAdapter w (v :: vs) (.int 1 :: vs.map fun _ => .int 1) (some 1) := by
    simp only [List.foldl_cons, ac_first_step]
    rw [ac_fold n w vs [v] [.int 1] (some 1)]
    rfl
  have hbs : (acd n).elementBucketStep ([], MergeableStateAdapter.init emptyRaw)
      (w, v :: vs)
      = (if shouldFire adapterOps (.afterCount n) Watermark.neginf w (Ctx.trigger w)
            (acAdapter w (v :: vs) (.int 1 :: vs.map fun _ => .int 1) (some 1)) then
          ([((acd n).outputPane w true (acAdapter w (v :: vs)
              (.int 1 :: vs.map fun _ => .int 1) (some 1))).1],
           ((acd n).outputPane w true (acAdapter w (v :: vs)
              (.int 1 :: vs.map fun _ => .int 1) (some 1))).2)
        else ([], acAdapter w (v :: vs) (.int 1 :: vs.map fun _ => .int 1)
          (some 1))) := by
    simp only [GeneralTriggerDriver.elementBucketStep]
    rw [if_neg hnotomb]
    rw [show ∀ s : MergeableStateAdapter,
        (v :: vs).foldl (fun s x => onElement adapterOps (acd n).trigger_fn x w
          (Ctx.trigger w) (s.add_state w ELEMENTS x)) s
        = (v :: vs).foldl (fun s x => onElement adapterOps (.afterCount n) x w
          (Ctx.trigger w) (s.add_state w ELEMENTS x)) s from fun _ => rfl]
    rw [hfold]
    rw [show shouldFire adapterOps (acd n).trigger_fn Watermark.neginf w (Ctx.trigger w)
          (acAdapter w (v :: vs) (.int 1 :: vs.map fun _ => .int 1) (some 1))
        = shouldFire adapterOps (.afterCount n) Watermark.neginf w (Ctx.trigger w)
          (acAdapter w (v :: vs) (.int 1 :: vs.map fun _ => .int 1) (some 1)) from rfl]
    cases hfire : shouldFire adapterOps (.afterCount n) Watermark.neginf w (Ctx.trigger w)
        (acAdapter w (v :: vs) (.int 1 :: vs.map fun _ => .int 1) (some 1))
    · simp
    · simp only [if_true]
      rw [show onFire adapterOps (acd n).trigger_fn Watermark.neginf w (Ctx.trigger w)
            (acAdapter w (v :: vs) (.int 1 :: vs.map fun _ => .int 1) (some 1))
          = onFire adapterOps (.afterCount n) Watermark.neginf w (Ctx.trigger w)
            (acAdapter w (v :: vs) (.int 1 :: vs.map fun _ => .int 1) (some 1))
        from rfl]
      rw [ac_onFire]
      simp
  rw [hpe, hbs, ac_shouldFire, ac_output_true]
  have hlen : ((PyVal.int 1 :: vs.map fun _ => PyVal.int 1).length : ℤ)
      = (((v :: vs).length : ℕ) : ℤ) := by
    simp
  rw [hlen]
  cases hc : decide (n ≤ (((v :: vs).length : ℕ) : ℤ))
  · have hn : ¬ (n ≤ (((v :: vs).length : ℕ) : ℤ)) := of_decide_eq_false hc
    rw [if_neg hn]
    rfl
  · have hn : n ≤ (((v :: vs).length : ℕ) : ℤ) := of_decide_eq_true hc
    rw [if_pos hn]
    rfl

theorem ac_run_mid (n : ℕ) (w : IntervalWindow) :
    ∀ (batches : List (List PyVal)) (es : List PyVal), es.length < n →
      (runBatches (acd n) w (acActiveRaw w es) batches).1
        = acPanesSpec n w es batches := by
  intro batches
  induction batches with
  | nil => intro es _; rfl
  | cons vs rest ih =>
      intro es hlt
      cases vs with
      | nil =>
          have h1 : (runBatches (acd n) w (acActiveRaw w es) ([] :: rest)).1
              = (runBatches (acd n) w (acActiveRaw w es) rest).1 := by
            simp only [runBatches, List.map_nil]
            rw [pe_empty_batch]
            simp
          rw [h1, ih es hlt]
          simp [acPanesSpec]
      | cons v vs' =>
          by_cases hfire : n ≤ (es ++ v :: vs').length
          · have hcond : (n : ℤ)
                ≤ (((es.map fun _ => PyVal.int 1).length + (v :: vs').length : ℕ) : ℤ) := by
              rw [List.length_append] at hfire
              simp only [List.length_map]
              exact_mod_cast hfire
            have h1 : runBatches (acd n) w (acActiveRaw w es) ((v :: vs') :: rest)
                = ([(w, .list (es ++ v :: vs'))] ++
                    (runBatches (acd n) w (tombRaw w []) rest).1,
                   (runBatches (acd n) w (tombRaw w []) rest).2) := by
              simp only [runBatches]
              rw [acActiveRaw_eq, ac_pe, if_pos hcond]
            rw [h1]
            rw [tomb_runBatches (acd n) w rest (tombRaw w []) (tombRaw_swtomb w [])]
            simp only [acPanesSpec, List.isEmpty_cons, Bool.false_eq_true, if_false,
              if_pos hfire]
            simp
          · have hcond : ¬ ((n : ℤ)
                ≤ (((es.map fun _ => PyVal.int 1).length + (v :: vs').length : ℕ) : ℤ)) := by
              rw [List.length_append] at hfire
              simp only [List.length_map]
              exact_mod_cast hfire
            have h1 : runBatches (acd n) w (acActiveRaw w es) ((v :: vs') :: rest)
                = ([] ++ (runBatches (acd n) w (acActiveRaw w (es ++ v :: vs')) rest).1,
                   (runBatches (acd n) w (acActiveRaw w (es ++ v :: vs')) rest).2) := by
              simp only [runBatches]
              rw [acActiveRaw_eq, ac_pe, if_neg hcond, ← List.map_append,
                ← acActiveRaw_eq]
            rw [h1]
            have hlt' : (es ++ v :: vs').length < n := by
              rw [List.length_append] at hfire ⊢
              omega
            simp only [List.nil_append]
            rw [ih (es ++ v :: vs') hlt']
            simp only [acPanesSpec, List.isEmpty_cons, Bool.false_eq_true, if_false,
              if_neg hfire]

theorem ac_run (n : ℕ) (w : IntervalWindow) :
    ∀ batches : List (List PyVal),
      (runBatches (acd n) w emptyRaw batches).1 = acPanesSpec n w [] batches := by
  intro batches
  induction batches with
  | nil => rfl
  | cons vs rest ih =>
      cases vs with
      | nil =>
          have h1 : (runBatches (acd n) w emptyRaw ([] :: rest)).1
              = (runBatches (acd n) w emptyRaw rest).1 := by
            simp only [runBatches, List.map_nil]
            rw [pe_empty_batch]
            simp
          rw [h1, ih]
          simp [acPanesSpec]
      | cons v vs' =>
          by_cases hfire : n ≤ (v :: vs').length
          · have hcond : (n : ℤ) ≤ (((v :: vs').length : ℕ) : ℤ) := by exact_mod_cast hfire
            have h1 : runBatches (acd n) w emptyRaw ((v :: vs') :: rest)
                = ([(w, .list (v :: vs'))] ++
                    (runBatches (acd n) w (tombRaw w []) rest).1,
                   (runBatches (acd n) w (tombRaw w []) rest).2) := by
              simp only [runBatches]
              rw [ac_pe_first, if_pos hcond]
            rw [h1]
            rw [tomb_runBatches (acd n) w rest (tombRaw w []) (tombRaw_swtomb w [])]
            have hfire' : n ≤ (([] : List PyVal) ++ v :: vs').length := by
              simpa using hfire
            simp only [acPanesSpec, List.isEmpty_cons, Bool.false_eq_true, if_false,
              if_pos hfire']
            simp
          · have hcond : ¬ ((n : ℤ) ≤ (((v :: vs').length : ℕ) : ℤ)) := by
              exact_mod_cast hfire
            have h1 : runBatches (acd n) w emptyRaw ((v :: vs') :: rest)
                = ([] ++ (runBatches (acd n) w (acActiveRaw w (v :: vs')) rest).1,
                   (runBatches (acd n) w (acActiveRaw w (v :: vs')) rest).2) := by
              simp only [runBatches]
              rw [ac_pe_first, if_neg hcond]
            rw [h1]
            have hlt : (v :: vs').length < n := by omega
            simp only [List.nil_append]
            rw [ac_run_mid n w rest (v :: vs') hlt]
            have hfire' : ¬ n ≤ (([] : List PyVal) ++ v :: vs').length := by
              simpa using hfire
            simp only [acPanesSpec, List.isEmpty_cons, Bool.false_eq_true, if_false,
              if_neg hfire']
            rfl

theorem acPanesSpec_singles (n : ℕ) (w : IntervalWindow) :
    ∀ (es acc : List PyVal), acc.length < n →
      acPanesSpec n w acc (es.map fun v => [v])
        = if n ≤ acc.length + es.length
          then [(w, .list (acc ++ es.take (n - acc.length)))] else [] := by
  intro es
  induction es with
  | nil =>
      intro acc hlt
      simp only [List.map_nil, acPanesSpec, List.length_nil, Nat.add_zero]
      rw [if_neg (by omega)]
  | cons v es ih =>
      intro acc hlt
      simp only [List.map_cons, acPanesSpec, List.isEmpty_cons, Bool.false_eq_true,
        if_false, List.length_append, List.length_cons, List.length_nil]
      by_cases hn : n ≤ acc.length + 1
      · have hn' : n = acc.length + 1 := by omega
        rw [if_pos (by omega), if_pos (by omega)]
        have htake : (v :: es).take (n - acc.length) = [v] := by
          rw [show n - acc.length = 1 from by omega]
          rfl
        rw [htake]
      · rw [if_neg (by omega)]
        rw [ih (acc ++ [v]) (by simp; omega)]
        have hc : (acc ++ [v]).length + es.length = acc.length + (es.length + 1) := by
          simp
          omega
        rw [hc]
        by_cases hn2 : n ≤ acc.length + (es.length + 1)
        · rw [if_pos hn2, if_pos hn2]
          have htake : (v :: es).take (n - acc.length)
              = v :: es.take (n - (acc ++ [v]).length) := by
            have h1 : n - acc.length = (n - (acc ++ [v]).length) + 1 := by
              simp
              omega
            rw [h1]
            rfl
          rw [htake]
          simp
        · rw [if_neg hn2, if_neg hn2]

/-- C2 (corrected): through the general driver, `AfterCount(n)`'s
`should_fire` is evaluated once per window per bundle, after the whole
bundle's elements have been added — not after each element.  The panes of a
single-window `DISCARDING` run refine `acPanesSpec`: the first bundle whose
cumulative element count reaches `n` emits one pane carrying everything
accumulated (which can be more than `n` elements), and the window finishes.
`should_fire` itself returns true iff the `count` state holds at least `n`
inputs, `on_fire` always returns true (finished), and only when elements
arrive in single-element bundles does the pane appear exactly at the `n`th
element, carrying the first `n` elements. -/
theorem C2_aftercount_firing (n : ℕ) (w : IntervalWindow)
    (batches : List (List PyVal)) :
    (runBatches (acd n) w emptyRaw batches).1 = acPanesSpec n w [] batches ∧
    (∀ (wm : Watermark) (es cs : List PyVal) (c : Option ℕ),
      shouldFire adapterOps (.afterCount n) wm w (Ctx.trigger w) (acAdapter w es cs c)
        = decide ((n : ℤ) ≤ (cs.length : ℤ))) ∧
    (∀ (wm : Watermark) (c : Ctx) (st : MergeableStateAdapter),
      onFire adapterOps (.afterCount n) wm w c st = (true, st)) ∧
    (1 ≤ n → ∀ es : List PyVal,
      acPanesSpec n w [] (es.map fun v => [v])
        = if n ≤ es.length then [(w, .list (es.take n))] else []) := by
  refine ⟨ac_run n w batches, fun wm es cs c => ac_shouldFire n w wm es cs c,
    fun wm c st => ac_onFire n wm w c st, fun hn es => ?_⟩
  rw [acPanesSpec_singles n w es [] (by simpa using hn)]
  simp

theorem C2_aftercount_firing_witness :
    ((runBatches (acd 2) sampleW emptyRaw [[.int 1], [.int 2], [.int 3]]).1
        = acPanesSpec 2 sampleW [] [[.int 1], [.int 2], [.int 3]] ∧
      (∀ (wm : Watermark) (es cs : List PyVal) (c : Option ℕ),
        shouldFire adapterOps (.afterCount 2) wm sampleW (Ctx.trigger sampleW)
            (acAdapter sampleW es cs c)
          = decide ((2 : ℤ) ≤ (cs.length : ℤ))) ∧
      (∀ (wm : Watermark) (c : Ctx) (st : MergeableStateAdapter),
        onFire adapterOps (.afterCount 2) wm sampleW c st = (true, st)) ∧
      (1 ≤ 2 → ∀ es : List PyVal,
        acPanesSpec 2 sampleW [] (es.map fun v => [v])
          = if 2 ≤ es.length then [(sampleW, .list (es.take 2))] else [])) :=
  C2_aftercount_firing 2 sampleW [[.int 1], [.int 2], [.int 3]]

/-- Counterexample to the frozen C2 wording: a three-element bundle under
`AfterCount(2)` yields a single pane holding all three elements — the
trigger did not fire "exactly at the point the 2nd element is added", which
would have produced the pane `[1, 2]`. -/
theorem C2_bundle_counterexample :
    ((acd 2).process_elements
        [(.int 1, [sampleW]), (.int 2, [sampleW]), (.int 3, [sampleW])] emptyRaw).1
      = [(sampleW, .list [.int 1, .int 2, .int 3])] ∧
    ((acd 2).process_elements
        [(.int 1, [sampleW]), (.int 2, [sampleW]), (.int 3, [sampleW])] emptyRaw).1
      ≠ [(sampleW, .list [.int 1, .int 2])] := by
  constructor
  · rfl
  · decide

/-! ### AfterWatermark (no early/late): concrete single-window run -/

theorem aw_isLate {σ : Type} (ops : SimpleStateOps σ) (c : Ctx) (s : σ) :
    isLateCtx ops Option.none c s = false := rfl

theorem aw_shouldFire {σ : Type} (ops : SimpleStateOps σ) (wm : Watermark)
    (w : IntervalWindow) (c : Ctx) (s : σ) :
    shouldFire ops (.afterWatermark Option.none Option.none) wm w c s
      = wm.geEnd w.wend := by
  cases hg : wm.geEnd w.wend <;>
    simp [shouldFire, isLateCtx, hg]

theorem aw_onFire_ge {σ : Type} (ops : SimpleStateOps σ) (wm : Watermark)
    (w : IntervalWindow) (c : Ctx) (s : σ) (h : wm.geEnd w.wend = true) :
    onFire ops (.afterWatermark Option.none Option.none) wm w c s
      = (true, Ctx.add_state ops c LATE_TAG (.bool true) s) := by
  simp [onFire, isLateCtx, h]

theorem aw_onFire_lt {σ : Type} (ops : SimpleStateOps σ) (wm : Watermark)
    (w : IntervalWindow) (c : Ctx) (s : σ) (h : wm.geEnd w.wend = false) :
    onFire ops (.afterWatermark Option.none Option.none) wm w c s = (false, s) := by
  simp [onFire, isLateCtx, h]

theorem aw_onElement {σ : Type} (ops : SimpleStateOps σ) (v : PyVal)
    (w : IntervalWindow) (c : Ctx) (s : σ) :
    onElement ops (.afterWatermark Option.none Option.none) v w c s
      = Ctx.set_timer ops c "" w.wend s := by
  simp [onElement, isLateCtx]

theorem init_awActiveRaw (w : IntervalWindow) (es : List PyVal) :
    MergeableStateAdapter.init (awActiveRaw w es) = awAdapter w es Option.none := rfl

theorem aw_add_elements (w : IntervalWindow) (es : List PyVal) (v : PyVal)
    (c : Option ℕ) :
    (awAdapter w es c).add_state w ELEMENTS v = awAdapter w (es ++ [v]) c := by
  rw [show ELEMENTS = StateTag.listStateTag "elements" from rfl,
    single_add_state_list rfl "elements" v]
  rfl

theorem aw_set_timer (w : IntervalWindow) (es : List PyVal) (c : Option ℕ) :
    (awAdapter w es c).set_timer w "" w.wend = awAdapter w es c := by
  rw [single_set_timer rfl "" w.wend]
  rfl

theorem aw_step (w : IntervalWindow) (es : List PyVal) (v : PyVal) (c : Option ℕ) :
    onElement adapterOps (.afterWatermark Option.none Option.none) v w (Ctx.trigger w)
      ((awAdapter w es c).add_state w ELEMENTS v) = awAdapter w (es ++ [v]) c := by
  rw [aw_add_elements, aw_onElement]
  rw [show Ctx.set_timer adapterOps (Ctx.trigger w) "" w.wend (awAdapter w (es ++ [v]) c)
      = (awAdapter w (es ++ [v]) c).set_timer w "" w.wend from rfl]
  exact aw_set_timer w (es ++ [v]) c

theorem aw_fold (w : IntervalWindow) :
    ∀ (vs es : List PyVal) (c : Option ℕ),
      vs.foldl (fun s v => onElement adapterOps (.afterWatermark Option.none Option.none)
          v w (Ctx.trigger w) (s.add_state w ELEMENTS v)) (awAdapter w es c)
        = awAdapter w (es ++ vs) c := by
  intro vs
  induction vs with
  | nil => intro es c; simp
  | cons v vs ih =>
      intro es c
      simp only [List.foldl_cons, aw_step]
      rw [ih]
      simp

theorem aw_first_step (w : IntervalWindow) (v : PyVal) :
    onElement adapterOps (.afterWatermark Option.none Option.none) v w (Ctx.trigger w)
      ((MergeableStateAdapter.init emptyRaw).add_state w ELEMENTS v)
      = awAdapter w [v] (some 1) := by
  rw [aw_onElement, first_add_state]
  rw [show Ctx.set_timer adapterOps (Ctx.trigger w) "" w.wend
        ({ raw_state :=
            { timers := []
              state := [(1, [("elements", .list [v])])]
              globalState := [("window_ids", [(w, [1])])] }
           window_ids := [(w, [1])]
           counter := some 1 } : MergeableStateAdapter)
      = ({ raw_state :=
            { timers := []
              state := [(1, [("elements", .list [v])])]
              globalState := [("window_ids", [(w, [1])])] }
           window_ids := [(w, [1])]
           counter := some 1 } : MergeableStateAdapter).set_timer w "" w.wend from rfl]
  rw [single_set_timer rfl "" w.wend]
  rfl

theorem aw_tomb_false (w : IntervalWindow) (es : List PyVal) (c : Option ℕ) :
    ((awAdapter w es c).get_state w TOMBSTONE).truthy = false := by
  rw [single_get_tombstone rfl]
  rfl

theorem aw_get_elements (w : IntervalWindow) (es : List PyVal) (c : Option ℕ) :
    (awAdapter w es c).get_state w ELEMENTS = .list es := by
  rw [single_get_elements rfl]
  have : ((awAdapter w es c).raw_state.cellOf 1 "elements").elems = es := rfl
  rw [this]

theorem aw_output_true (d : GeneralTriggerDriver) (w : IntervalWindow)
    (es : List PyVal) (c : Option ℕ) :
    d.outputPane w true ((awAdapter w es c).add_state w LATE_TAG (.bool true))
      = ((w, .list es),
         ⟨tombRaw w [(1, [("", w.wend)])], [(w, [1])], some 1⟩) := by
  have hadd : (awAdapter w es c).add_state w LATE_TAG (.bool true)
      = ⟨{ timers := [(1, [("", w.wend)])]
           state := [(1, [("elements", .list es), ("is_late", .list [.bool true])])]
           globalState := [("window_ids", [(w, [1])])] }, [(w, [1])], c⟩ := by
    rw [show LATE_TAG = StateTag.combiningValueStateTag "is_late" anyCombineFn from rfl,
      single_add_state rfl "is_late" anyCombineFn (.bool true)]
    rfl
  rw [hadd]
  have h0 : d.outputPane w true
      (⟨{ timers := [(1, [("", w.wend)])]
          state := [(1, [("elements", .list es), ("is_late", .list [.bool true])])]
          globalState := [("window_ids", [(w, [1])])] }, [(w, [1])], c⟩ :
        MergeableStateAdapter)
      = ((w, (⟨{ timers := [(1, [("", w.wend)])]
                 state := [(1, [("elements", .list es), ("is_late", .list [.bool true])])]
                 globalState := [("window_ids", [(w, [1])])] }, [(w, [1])], c⟩ :
              MergeableStateAdapter).get_state w ELEMENTS),
          ((⟨{ timers := [(1, [("", w.wend)])]
               state := [(1, [("elements", .list es), ("is_late", .list [.bool true])])]
               globalState := [("window_ids", [(w, [1])])] }, [(w, [1])], c⟩ :
             MergeableStateAdapter).clear_state w Option.none).add_state w TOMBSTONE
            (.int 1)) := rfl
  rw [h0, single_get_elements rfl]
  rw [single_clear_all rfl,
    show TOMBSTONE = StateTag.combiningValueStateTag "tombstone" CountCombineFn from rfl,
    add_state_alloc_combining _ w "tombstone" CountCombineFn (.int 1) rfl]
  rfl

theorem awd_trigger : awd.trigger_fn = .afterWatermark Option.none Option.none := rfl

theorem aw_pe (w : IntervalWindow) (es : List PyVal) (v : PyVal) (vs : List PyVal) :
    awd.process_elements ((v :: vs).map fun x => (x, [w])) (awActiveRaw w es)
      = ([], awActiveRaw w (es ++ v :: vs)) := by
  have hk : (MergeableStateAdapter.init (awActiveRaw w es)).known_windows.contains w
      = true := by
    have hm : (MergeableStateAdapter.init (awActiveRaw w es)).window_ids = [(w, [1])] :=
      rfl
    rw [single_known_windows hm]
    simp
  have hpe : awd.process_elements ((v :: vs).map fun x => (x, [w])) (awActiveRaw w es)
      = ((awd.elementBucketStep ([], MergeableStateAdapter.init (awActiveRaw w es))
           (w, v :: vs)).1,
         (awd.elementBucketStep ([], MergeableStateAdapter.init (awActiveRaw w es))
           (w, v :: vs)).2.raw_state) := by
    simp only [GeneralTriggerDriver.process_elements]
    rw [w2e_single w (v :: vs)]
    simp only [List.isEmpty_cons, Bool.false_eq_true, if_false]
    rw [mergePhase_known _ _ w (v :: vs) hk]
    simp only [List.foldl_cons, List.foldl_nil]
  have hnotomb : ¬(((MergeableStateAdapter.init (awActiveRaw w es)).get_state w
      TOMBSTONE).truthy = true) := by
    rw [init_awActiveRaw]
    simp [aw_tomb_false]
  have hbs : awd.elementBucketStep ([], MergeableStateAdapter.init (awActiveRaw w es))
      (w, v :: vs)
      = ([], awAdapter w (es ++ v :: vs) Option.none) := by
    simp only [GeneralTriggerDriver.elementBucketStep]
    rw [if_neg hnotomb]
    rw [show (MergeableStateAdapter.init (awActiveRaw w es))
        = awAdapter w es Option.none from rfl]
    rw [show ∀ s : MergeableStateAdapter,
        (v :: vs).foldl (fun s x => onElement adapterOps awd.trigger_fn x w
          (Ctx.trigger w) (s.add_state w ELEMENTS x)) s
        = (v :: vs).foldl (fun s x => onElement adapterOps
          (.afterWatermark Option.none Option.none) x w
          (Ctx.trigger w) (s.add_state w ELEMENTS x)) s from fun _ => rfl]
    rw [aw_fold]
    rw [show shouldFire adapterOps awd.trigger_fn Watermark.neginf w (Ctx.trigger w)
          (awAdapter w (es ++ v :: vs) Option.none)
        = shouldFire adapterOps (.afterWatermark Option.none Option.none)
          Watermark.neginf w (Ctx.trigger w)
          (awAdapter w (es ++ v :: vs) Option.none) from rfl]
    rw [aw_shouldFire]
    simp [Watermark.geEnd]
  rw [hpe, hbs]
  rfl

theorem aw_pe_first (w : IntervalWindow) (v : PyVal) (vs : List PyVal) :
    awd.process_elements ((v :: vs).map fun x => (x, [w])) emptyRaw
      = ([], awActiveRaw w (v :: vs)) := by
  have hpe : awd.process_elements ((v :: vs).map fun x => (x, [w])) emptyRaw
      = ((awd.elementBucketStep ([], MergeableStateAdapter.init emptyRaw)
           (w, v :: vs)).1,
         (awd.elementBucketStep ([], MergeableStateAdapter.init emptyRaw)
           (w, v :: vs)).2.raw_state) := by
    simp only [GeneralTriggerDriver.process_elements]
    rw [w2e_single w (v :: vs)]
    simp only [List.isEmpty_cons, Bool.false_eq_true, if_false]
    rw [mergePhase_fresh awd _ w (v :: vs) rfl (empty_known_false w)]
    simp only [List.foldl_cons, List.foldl_nil]
  have hnotomb : ¬(((MergeableStateAdapter.init emptyRaw).get_state w
      TOMBSTONE).truthy = true) := by
    rw [empty_tombstone_false w]
    simp
  have hfold : (v :: vs).foldl (fun s x => onElement adapterOps
        (.afterWatermark Option.none Option.none) x w (Ctx.trigger w)
        (s.add_state w ELEMENTS x)) (MergeableStateAdapter.init emptyRaw)
      = awAdapter w (v :: vs) (some 1) := by
    simp only [List.foldl_cons, aw_first_step]
    rw [aw_fold w vs [v] (some 1)]
    rfl
  have hbs : awd.elementBucketStep ([], MergeableStateAdapter.init emptyRaw)
      (w, v :: vs)
      = ([], awAdapter w (v :: vs) (some 1)) := by
    simp only [GeneralTriggerDriver.elementBucketStep]
    rw [if_neg hnotomb]
    rw [show ∀ s : MergeableStateAdapter,
        (v :: vs).foldl (fun s x => onElement adapterOps awd.trigger_fn x w
          (Ctx.trigger w) (s.add_state w ELEMENTS x)) s
        = (v :: vs).foldl (fun s x => onElement adapterOps
          (.afterWatermark Option.none Option.none) x w
          (Ctx.trigger w) (s.add_state w ELEMENTS x)) s from fun _ => rfl]
    rw [hfold]
    rw [show shouldFire adapterOps awd.trigger_fn Watermark.neginf w (Ctx.trigger w)
          (awAdapter w (v :: vs) (some 1))
        = shouldFire adapterOps (.afterWatermark Option.none Option.none)
          Watermark.neginf w (Ctx.trigger w) (awAdapter w (v :: vs) (some 1)) from rfl]
    rw [aw_shouldFire]
    simp [Watermark.geEnd]
  rw [hpe, hbs]
  rfl

theorem aw_pt (w : IntervalWindow) (es : List PyVal) (ts : ℤ) :
    awd.process_timer 1 ts (awActiveRaw w es)
      = if w.wend ≤ ts then
          .ok ([(w, .list es)], tombRaw w [(1, [("", w.wend)])])
        else .ok ([], awActiveRaw w es) := by
  have hm : (MergeableStateAdapter.init (awActiveRaw w es)).window_ids = [(w, [1])] := rfl
  have hgw : (MergeableStateAdapter.init (awActiveRaw w es)).get_window 1 = .ok w :=
    single_get_window hm
  have hk : (MergeableStateAdapter.init (awActiveRaw w es)).known_windows.contains w
      = true := by
    rw [single_known_windows hm]
    simp
  have hnotomb : ¬(((MergeableStateAdapter.init (awActiveRaw w es)).get_state w
      TOMBSTONE).truthy = true) := by
    rw [init_awActiveRaw]
    simp [aw_tomb_false]
  simp only [GeneralTriggerDriver.process_timer, hgw]
  rw [if_neg hnotomb, if_pos hk]
  rw [show shouldFire adapterOps awd.trigger_fn (.fin ts) w (Ctx.trigger w)
        (MergeableStateAdapter.init (awActiveRaw w es))
      = shouldFire adapterOps (.afterWatermark Option.none Option.none) (.fin ts) w
        (Ctx.trigger w) (MergeableStateAdapter.init (awActiveRaw w es)) from rfl]
  rw [aw_shouldFire]
  simp only [Watermark.geEnd]
  by_cases hts : w.wend ≤ ts
  · rw [if_pos (by simpa using hts), if_pos hts]
    rw [show onFire adapterOps awd.trigger_fn (.fin ts) w (Ctx.trigger w)
          (MergeableStateAdapter.init (awActiveRaw w es))
        = onFire adapterOps (.afterWatermark Option.none Option.none) (.fin ts) w
          (Ctx.trigger w) (MergeableStateAdapter.init (awActiveRaw w es)) from rfl]
    rw [aw_onFire_ge adapterOps (.fin ts) w (Ctx.trigger w) _
      (by simpa [Watermark.geEnd] using hts)]
    rw [show Ctx.add_state adapterOps (Ctx.trigger w) LATE_TAG (.bool true)
          (MergeableStateAdapter.init (awActiveRaw w es))
        = (awAdapter w es Option.none).add_state w LATE_TAG (.bool true) from rfl]
    rw [aw_output_true]
  · rw [if_neg (by simpa using hts), if_neg hts]
    rfl

theorem awPanesSpec_len (e : ℤ) (w : IntervalWindow) :
    ∀ (calls : List DriverCall) (acc : List PyVal),
      (awPanesSpec e w acc calls).length ≤ 1 := by
  intro calls
  induction calls with
  | nil => intro acc; simp [awPanesSpec]
  | cons c rest ih =>
      intro acc
      cases c with
      | elemsOf vs => simpa [awPanesSpec] using ih (acc ++ vs)
      | timerAt ts =>
          by_cases hts : e ≤ ts
          · simp [awPanesSpec, hts]
          · simpa [awPanesSpec, hts] using ih acc

theorem aw_run (w : IntervalWindow) :
    ∀ (calls : List DriverCall) (es : List PyVal),
      ∃ s', runCalls awd w (awActiveRaw w es) calls
        = .ok (awPanesSpec w.wend w es calls, s') := by
  intro calls
  induction calls with
  | nil => intro es; exact ⟨awActiveRaw w es, rfl⟩
  | cons c rest ih =>
      intro es
      cases c with
      | elemsOf vs =>
          cases vs with
          | nil =>
              obtain ⟨s', hs'⟩ := ih es
              refine ⟨s', ?_⟩
              simp only [runCalls, runCall]
              rw [show awd.process_elements (([] : List PyVal).map fun v => (v, [w]))
                  (awActiveRaw w es) = ([], awActiveRaw w es) from pe_empty_batch _ _]
              rw [hs']
              simp [awPanesSpec]
          | cons v vs' =>
              obtain ⟨s', hs'⟩ := ih (es ++ v :: vs')
              refine ⟨s', ?_⟩
              simp only [runCalls, runCall]
              rw [aw_pe w es v vs', hs']
              simp [awPanesSpec]
      | timerAt ts =>
          by_cases hts : w.wend ≤ ts
          · have hcall : runCall awd w (awActiveRaw w es) (.timerAt ts)
                = .ok ([(w, .list es)], tombRaw w [(1, [("", w.wend)])]) := by
              simp only [runCall]
              rw [aw_pt w es ts, if_pos hts]
            refine ⟨tombRaw w [(1, [("", w.wend)])], ?_⟩
            simp only [runCalls, hcall,
              tomb_runCalls awd w rest (tombRaw w [(1, [("", w.wend)])])
                (tombRaw_swtomb w _)]
            simp [awPanesSpec, hts]
          · have hcall : runCall awd w (awActiveRaw w es) (.timerAt ts)
                = .ok ([], awActiveRaw w es) := by
              simp only [runCall]
              rw [aw_pt w es ts, if_neg hts]
            obtain ⟨s', hs'⟩ := ih es
            refine ⟨s', ?_⟩
            simp only [runCalls, hcall, hs']
            simp [awPanesSpec, hts]

/-- C3: in a single-window run whose stream opens with a non-empty element
bundle (the driver arms `w`'s end-of-window timer when the first element
arrives), `AfterWatermark()` with neither early nor late subtriggers
refines `awPanesSpec`: elements never fire on the element path, the first
timer firing whose timestamp reaches `w.wend` emits the one pane, and the
window finishes, so no later call emits again — the run yields at most one
pane.  `should_fire` is exactly the comparison `watermark >= window.end`
(state-independent), and `on_fire` at a qualifying watermark reports
finished. -/
theorem C3_afterwatermark_single_fire (w : IntervalWindow) (v : PyVal)
    (vs : List PyVal) (rest : List DriverCall) :
    runCallsPanes awd w emptyRaw (.elemsOf (v :: vs) :: rest)
        = .ok (awPanesSpec w.wend w (v :: vs) rest) ∧
    (awPanesSpec w.wend w (v :: vs) rest).length ≤ 1 ∧
    (∀ (wm : Watermark) (c : Ctx) (st : MergeableStateAdapter),
      shouldFire adapterOps (AfterWatermarkT Option.none Option.none) wm w c st
        = wm.geEnd w.wend) ∧
    (∀ (wm : Watermark) (c : Ctx) (st : MergeableStateAdapter),
      wm.geEnd w.wend = true →
      (onFire adapterOps (AfterWatermarkT Option.none Option.none) wm w c st).1
        = true) := by
  refine ⟨?_, awPanesSpec_len w.wend w rest (v :: vs),
    fun wm c st => aw_shouldFire adapterOps wm w c st,
    fun wm c st h => by
      show (onFire adapterOps (.afterWatermark Option.none Option.none) wm w c st).1
        = true
      rw [aw_onFire_ge adapterOps wm w c st h]⟩
  have hcall : runCall awd w emptyRaw (.elemsOf (v :: vs))
      = .ok ([], awActiveRaw w (v :: vs)) := by
    simp only [runCall]
    rw [aw_pe_first w v vs]
  obtain ⟨s', hs'⟩ := aw_run w rest (v :: vs)
  rw [runCallsPanes]
  simp only [runCalls, hcall, hs']
  rfl

theorem C3_afterwatermark_single_fire_witness :
    (runCallsPanes awd sampleW emptyRaw [.elemsOf [.int 5], .timerAt 70]
        = .ok (awPanesSpec sampleW.wend sampleW [.int 5] [.timerAt 70]) ∧
      (awPanesSpec sampleW.wend sampleW [.int 5] [.timerAt 70]).length ≤ 1 ∧
      (∀ (wm : Watermark) (c : Ctx) (st : MergeableStateAdapter),
        shouldFire adapterOps (AfterWatermarkT Option.none Option.none) wm sampleW c st
          = wm.geEnd sampleW.wend) ∧
      (∀ (wm : Watermark) (c : Ctx) (st : MergeableStateAdapter),
        wm.geEnd sampleW.wend = true →
        (onFire adapterOps (AfterWatermarkT Option.none Option.none) wm sampleW c
          st).1 = true)) :=
  C3_afterwatermark_single_fire sampleW (.int 5) [] [.timerAt 70]

/-- C1: on a single-window adapter, `_output(w, True, state)` clears all of
`w`'s state and sets the `TOMBSTONE` counter (leaving a tombstoned
between-calls state); from any tombstoned state, every subsequent element
bundle addressed (pre-merge) to `w` is discarded — `process_elements` yields
no pane and leaves the state untouched — and likewise `w`'s timer firings
are dropped. -/
theorem C1_tombstone_finality (d : GeneralTriggerDriver) (w : IntervalWindow)
    (st : MergeableStateAdapter) (cm : List (String × PyVal))
    (hm : st.window_ids = [(w, [1])]) (hraw : st.raw_state.state = [(1, cm)]) :
    (∃ st', d.outputPane w true st = ((w, st.get_state w ELEMENTS), st') ∧
      TombAdapter w st' ∧ SWTomb w st'.raw_state) ∧
    (∀ s : RawState, SWTomb w s → ∀ vs : List PyVal,
      d.process_elements (vs.map fun v => (v, [w])) s = ([], s)) ∧
    (∀ s : RawState, SWTomb w s → ∀ ts : ℤ,
      d.process_timer 1 ts s = .ok ([], s)) := by
  refine ⟨?_, fun s ht vs => tomb_pe d w vs s ht, fun s ht ts => tomb_pt d ts s w ht⟩
  obtain ⟨st', hout, htomb, _⟩ := output_finished d cm hm hraw
  exact ⟨st', hout, htomb, tomb_reinit htomb⟩

theorem C1_tombstone_finality_witness :
    ((∃ st', acd2.outputPane sampleW true
          (MergeableStateAdapter.init (acActiveRaw sampleW [.int 3]))
        = ((sampleW, (MergeableStateAdapter.init
            (acActiveRaw sampleW [.int 3])).get_state sampleW ELEMENTS), st') ∧
        TombAdapter sampleW st' ∧ SWTomb sampleW st'.raw_state) ∧
      (∀ s : RawState, SWTomb sampleW s → ∀ vs : List PyVal,
        acd2.process_elements (vs.map fun v => (v, [sampleW])) s = ([], s)) ∧
      (∀ s : RawState, SWTomb sampleW s → ∀ ts : ℤ,
        acd2.process_timer 1 ts s = .ok ([], s))) :=
  C1_tombstone_finality acd2 sampleW
    (MergeableStateAdapter.init (acActiveRaw sampleW [.int 3]))
    [("elements", .list [.int 3]), ("count", .list [.int 1])] rfl rfl

theorem adapterGet_empty (w : IntervalWindow) :
    adapterGet emptyRaw w ELEMENTS = .list [] := rfl

/-- Pane partition of a `DISCARDING` single-window run: the elements of the
emitted panes, in order, followed by the still-pending elements, are exactly
the elements of the accepted batch prefix (acceptance stops once the window
is tombstoned). -/
theorem run_partition (d : GeneralTriggerDriver) (hwfn : d.window_fn = noMergeWindowFn)
    (hmode : d.accumulation_mode = .discarding) (w : IntervalWindow) :
    ∀ (batches : List (List PyVal)) (s : RawState) (pending : List PyVal),
      SWRun w s pending →
      ∃ k ≤ batches.length, ∃ pending' : List PyVal,
        ((runBatches d w s batches).1.map fun p => p.2.elems).flatten ++ pending'
            = pending ++ (batches.take k).flatten ∧
        (∀ p ∈ (runBatches d w s batches).1, p.1 = w) ∧
        (SWRun w (runBatches d w s batches).2 pending' ∨
          SWTomb w (runBatches d w s batches).2 ∧ pending' = []) := by
  intro batches
  induction batches with
  | nil =>
      intro s pending h
      exact ⟨0, by simp, pending, by simp [runBatches], by simp [runBatches], Or.inl h⟩
  | cons vs rest ih =>
      intro s pending h
      have hrb : ∀ (r1 : List Pane) (s₁ : RawState),
          d.process_elements (vs.map fun v => (v, [w])) s = (r1, s₁) →
          runBatches d w s (vs :: rest)
            = (r1 ++ (runBatches d w s₁ rest).1, (runBatches d w s₁ rest).2) := by
        intro r1 s₁ hpe
        simp only [runBatches, hpe]
      rcases h with ⟨rfl, rfl⟩ | hact
      · cases vs with
        | nil =>
            have heq := hrb [] emptyRaw (pe_empty_batch d emptyRaw)
            obtain ⟨k, hk, p', heq', hw, hend⟩ := ih emptyRaw [] (Or.inl ⟨rfl, rfl⟩)
            refine ⟨k + 1, by simpa using Nat.succ_le_succ hk, p', ?_, ?_, ?_⟩
            · rw [heq]
              simpa using heq'
            · rw [heq]
              simpa using hw
            · rw [heq]
              exact hend
        | cons v vs' =>
            rcases pe_first d hwfn hmode w v vs' with ⟨s₁, hpe, hact₁⟩ |
              ⟨s₁, hpe, hcase⟩
            · have heq := hrb [] s₁ hpe
              obtain ⟨k, hk, p', heq', hw, hend⟩ := ih s₁ (v :: vs') (Or.inr hact₁)
              refine ⟨k + 1, by simpa using Nat.succ_le_succ hk, p', ?_, ?_, ?_⟩
              · rw [heq]
                simpa using heq'
              · rw [heq]
                simpa using hw
              · rw [heq]
                exact hend
            · rcases hcase with hact₁ | htomb₁
              · have heq := hrb [(w, .list (v :: vs'))] s₁ hpe
                obtain ⟨k, hk, p', heq', hw, hend⟩ := ih s₁ [] (Or.inr hact₁)
                refine ⟨k + 1, by simpa using Nat.succ_le_succ hk, p', ?_, ?_, ?_⟩
                · rw [heq, List.take_succ_cons, List.flatten_cons]
                  have hhead : ((([(w, PyVal.list (v :: vs'))]
                        ++ (runBatches d w s₁ rest).1).map fun p => p.2.elems).flatten)
                      = (v :: vs')
                        ++ (((runBatches d w s₁ rest).1.map fun p => p.2.elems).flatten)
                      := by
                    simp [PyVal.elems]
                  rw [hhead, List.append_assoc]
                  rw [List.nil_append] at heq'
                  rw [heq']
                  simp
                · rw [heq]
                  intro p hp
                  rcases List.mem_append.1 hp with hp | hp
                  · have hpp : p = (w, PyVal.list (v :: vs')) := by simpa using hp
                    rw [hpp]
                  · exact hw p hp
                · rw [heq]
                  exact hend
              · have heq := hrb [(w, .list (v :: vs'))] s₁ hpe
                have hrest := tomb_runBatches d w rest s₁ htomb₁
                refine ⟨1, by simp, [], ?_, ?_, ?_⟩
                · rw [heq, hrest]
                  simp [PyVal.elems]
                · rw [heq, hrest]
                  intro p hp
                  simp at hp
                  rw [hp]
                · rw [heq, hrest]
                  exact Or.inr ⟨htomb₁, rfl⟩
      · cases vs with
        | nil =>
            have heq := hrb [] s (pe_empty_batch d s)
            obtain ⟨k, hk, p', heq', hw, hend⟩ := ih s pending (Or.inr hact)
            refine ⟨k + 1, by simpa using Nat.succ_le_succ hk, p', ?_, ?_, ?_⟩
            · rw [heq]
              simpa using heq'
            · rw [heq]
              simpa using hw
            · rw [heq]
              exact hend
        | cons v vs' =>
            rcases pe_sw d hwfn hmode w (v :: vs') s pending hact with
              ⟨s₁, hpe, hact₁⟩ | ⟨s₁, hpe, hcase⟩
            · have heq := hrb [] s₁ hpe
              obtain ⟨k, hk, p', heq', hw, hend⟩ :=
                ih s₁ (pending ++ v :: vs') (Or.inr hact₁)
              refine ⟨k + 1, by simpa using Nat.succ_le_succ hk, p', ?_, ?_, ?_⟩
              · rw [heq]
                simp only [List.map_append, List.map_nil, List.flatten_append,
                  List.flatten_nil, List.nil_append, List.take_succ_cons,
                  List.flatten_cons]
                rw [← List.append_assoc]
                simpa using heq'
              · rw [heq]
                simpa using hw
              · rw [heq]
                exact hend
            · rcases hcase with hact₁ | htomb₁
              · have heq := hrb [(w, .list (pending ++ v :: vs'))] s₁ hpe
                obtain ⟨k, hk, p', heq', hw, hend⟩ := ih s₁ [] (Or.inr hact₁)
                refine ⟨k + 1, by simpa using Nat.succ_le_succ hk, p', ?_, ?_, ?_⟩
                · rw [heq, List.take_succ_cons, List.flatten_cons]
                  have hhead : ((([(w, PyVal.list (pending ++ v :: vs'))]
                        ++ (runBatches d w s₁ rest).1).map fun p => p.2.elems).flatten)
                      = (pending ++ v :: vs')
                        ++ (((runBatches d w s₁ rest).1.map fun p => p.2.elems).flatten)
                      := by
                    simp [PyVal.elems]
                  rw [hhead, List.append_assoc]
                  rw [List.nil_append] at heq'
                  rw [heq']
                  simp
                · rw [heq]
                  intro p hp
                  rcases List.mem_append.1 hp with hp | hp
                  · have hpp : p = (w, PyVal.list (pending ++ v :: vs')) := by
                      simpa using hp
                    rw [hpp]
                  · exact hw p hp
                · rw [heq]
                  exact hend
              · have heq := hrb [(w, .list (pending ++ v :: vs'))] s₁ hpe
                have hrest := tomb_runBatches d w rest s₁ htomb₁
                refine ⟨1, by simp, [], ?_, ?_, ?_⟩
                · rw [heq, hrest]
                  simp [PyVal.elems]
                · rw [heq, hrest]
                  intro p hp
                  simp at hp
                  rw [hp]
                · rw [heq, hrest]
                  exact Or.inr ⟨htomb₁, rfl⟩

/-- C5 (corrected): in a `DISCARDING` single-window run from the empty
state, the panes emitted for `w` carry pairwise-disjoint element segments
whose concatenation, followed by the elements still pending in `w`'s
`ELEMENTS` state, equals the elements of the accepted batch prefix (all
batches unless the window finished mid-run).  The frozen wording — panes
alone exhaust the elements written — fails while unfired elements are
pending. -/
theorem C5_discarding_pane_partition (d : GeneralTriggerDriver)
    (hwfn : d.window_fn = noMergeWindowFn)
    (hmode : d.accumulation_mode = .discarding) (w : IntervalWindow)
    (batches : List (List PyVal)) :
    ∃ k ≤ batches.length, ∃ pending : List PyVal,
      ((runBatches d w emptyRaw batches).1.map fun p => p.2.elems).flatten ++ pending
          = (batches.take k).flatten ∧
      (∀ p ∈ (runBatches d w emptyRaw batches).1, p.1 = w) ∧
      adapterGet (runBatches d w emptyRaw batches).2 w ELEMENTS = .list pending := by
  obtain ⟨k, hk, p', heq, hw, hend⟩ :=
    run_partition d hwfn hmode w batches emptyRaw [] (Or.inl ⟨rfl, rfl⟩)
  refine ⟨k, hk, p', by simpa using heq, hw, ?_⟩
  rcases hend with h | ⟨h, rfl⟩
  · rcases h with ⟨heq2, rfl⟩ | hact
    · rw [heq2]
      exact adapterGet_empty w
    · exact sw_get_elements hact
  · exact tomb_get_elements h

theorem C5_discarding_pane_partition_witness :
    ∃ k ≤ ([[.int 1], [.int 2], [.int 3]] : List (List PyVal)).length,
      ∃ pending : List PyVal,
        ((runBatches acd2 sampleW emptyRaw [[.int 1], [.int 2], [.int 3]]).1.map
            fun p => p.2.elems).flatten ++ pending
            = (([[.int 1], [.int 2], [.int 3]] : List (List PyVal)).take k).flatten ∧
        (∀ p ∈ (runBatches acd2 sampleW emptyRaw [[.int 1], [.int 2], [.int 3]]).1,
          p.1 = sampleW) ∧
        adapterGet (runBatches acd2 sampleW emptyRaw [[.int 1], [.int 2], [.int 3]]).2
          sampleW ELEMENTS = .list pending :=
  C5_discarding_pane_partition acd2 rfl rfl sampleW [[.int 1], [.int 2], [.int 3]]

/-- Counterexample to the frozen C5 wording: one bundle `[7]` under
`AfterCount(2)` (DISCARDING) emits no pane, yet `7` has been appended to the
window's `ELEMENTS` state — the union of the panes' elements does not equal
the elements written. -/
theorem C5_pending_counterexample :
    (runBatches acd2 sampleW emptyRaw [[.int 7]]).1 = [] ∧
    adapterGet (runBatches acd2 sampleW emptyRaw [[.int 7]]).2 sampleW ELEMENTS
      = .list [.int 7] := ⟨rfl, rfl⟩

theorem StateTag.withPfx_withPfx (t : StateTag) (p q : String) :
    (t.withPfx q).withPfx p = t.withPfx (p ++ q) := by
  cases t <;> simp [StateTag.withPfx, String.append_assoc]

/-- C9: writing, reading and clearing state through
`NestedContext(NestedContext(ctx, "a/"), "b/")` equals performing the same
operation directly on `ctx` with the tag prefixed by `"a/b/"`, and setting or
clearing a timer equals doing so under the string key `"a/b/" + tag`. -/
theorem C9_nested_context_composition {σ : Type} (ops : SimpleStateOps σ) (c : Ctx)
    (tag : StateTag) (v : PyVal) (tmr : String) (ts : ℤ) (s : σ) :
    Ctx.add_state ops (.nested (.nested c "a/") "b/") tag v s
      = Ctx.add_state ops c (tag.withPfx "a/b/") v s ∧
    Ctx.get_state ops (.nested (.nested c "a/") "b/") tag s
      = Ctx.get_state ops c (tag.withPfx "a/b/") s ∧
    Ctx.clear_state ops (.nested (.nested c "a/") "b/") tag s
      = Ctx.clear_state ops c (tag.withPfx "a/b/") s ∧
    Ctx.set_timer ops (.nested (.nested c "a/") "b/") tmr ts s
      = Ctx.set_timer ops c ("a/b/" ++ tmr) ts s ∧
    Ctx.clear_timer ops (.nested (.nested c "a/") "b/") tmr s
      = Ctx.clear_timer ops c ("a/b/" ++ tmr) s := by
  have hab : ("a/" ++ "b/" : String) = "a/b/" := by decide
  refine ⟨?_, ?_, ?_, ?_, ?_⟩
  · simp only [Ctx.add_state, StateTag.withPfx_withPfx, hab]
  · simp only [Ctx.get_state, StateTag.withPfx_withPfx, hab]
  · simp only [Ctx.clear_state, StateTag.withPfx_withPfx, hab]
  · simp only [Ctx.set_timer, ← String.append_assoc, hab]
  · simp only [Ctx.clear_timer, ← String.append_assoc, hab]

/-- C6: `Repeatedly(t).on_fire` always reports not-finished, and exactly when
the inner trigger's `on_fire` reports finished, `Repeatedly` additionally
runs `t.reset` on the same window and context before returning. -/
theorem C6_repeatedly_never_finishes {σ : Type} (ops : SimpleStateOps σ) (t : TriggerFn)
    (wm : Watermark) (w : IntervalWindow) (c : Ctx) (s : σ) :
    (onFire ops (.repeatedly t) wm w c s).1 = false ∧
    ((onFire ops t wm w c s).1 = true →
      (onFire ops (.repeatedly t) wm w c s).2
        = resetT ops t w c (onFire ops t wm w c s).2) ∧
    ((onFire ops t wm w c s).1 = false →
      (onFire ops (.repeatedly t) wm w c s).2 = (onFire ops t wm w c s).2) := by
  refine ⟨?_, fun h => ?_, fun h => ?_⟩
  · simp only [onFire]
    split <;> rfl
  · simp only [onFire, h]
    simp
  · simp only [onFire, h]
    simp

/-- Witness for C6 at `t = AfterCount 0` (whose `on_fire` finishes) over the
adapter backend. -/
theorem C6_repeatedly_never_finishes_witness :
    (onFire adapterOps (.afterCount 0) .neginf sampleW (.trigger sampleW)
        (MergeableStateAdapter.init emptyRaw)).1 = true ∧
    (onFire adapterOps (.repeatedly (.afterCount 0)) .neginf sampleW (.trigger sampleW)
        (MergeableStateAdapter.init emptyRaw)).1 = false ∧
    (onFire adapterOps (.repeatedly (.afterCount 0)) .neginf sampleW (.trigger sampleW)
        (MergeableStateAdapter.init emptyRaw)).2
      = resetT adapterOps (.afterCount 0) sampleW (.trigger sampleW)
          (onFire adapterOps (.afterCount 0) .neginf sampleW (.trigger sampleW)
            (MergeableStateAdapter.init emptyRaw)).2 :=
  ⟨by decide,
   (C6_repeatedly_never_finishes adapterOps (.afterCount 0) .neginf sampleW
      (.trigger sampleW) (MergeableStateAdapter.init emptyRaw)).1,
   (C6_repeatedly_never_finishes adapterOps (.afterCount 0) .neginf sampleW
      (.trigger sampleW) (MergeableStateAdapter.init emptyRaw)).2.1 (by decide)⟩

/-- C7 (amended): the merge adapter's `get_state` on a `Combining` tag
merges-then-extracts over two or more ids; with exactly one id it skips
`merge_accumulators` but still applies `extract_output` to the raw stored
value (the raw value is not passed through unchanged). -/
theorem C7_adapter_combining_get (a : MergeableStateAdapter) (w : IntervalWindow)
    (name : String) (fn : CombineFn) :
    ((a.getIds w).length = 1 →
      a.get_state w (.combiningValueStateTag name fn)
        = fn.extractOutput
            (a.raw_state.get_state (a.getIds w).headI (.combiningValueStateTag name fn))) ∧
    (2 ≤ (a.getIds w).length →
      a.get_state w (.combiningValueStateTag name fn)
        = fn.extractOutput (fn.mergeAccumulators
            ((a.getIds w).map
              (fun wid => a.raw_state.get_state wid (.combiningValueStateTag name fn))))) := by
  constructor
  · intro h1
    obtain ⟨i, hi⟩ := List.length_eq_one.mp h1
    simp [MergeableStateAdapter.get_state, hi]
  · intro h2
    cases hids : a.getIds w with
    | nil => rw [hids] at h2; simp at h2
    | cons x tl =>
      cases tl with
      | nil => rw [hids] at h2; simp at h2
      | cons y rest => simp [MergeableStateAdapter.get_state, hids]

/-- Witness for C7 at the concrete single-id adapter `c7Adapter`. -/
theorem C7_adapter_combining_get_witness :
    (c7Adapter.getIds sampleW).length = 1 ∧
    c7Adapter.get_state sampleW (.combiningValueStateTag "x" c7CombineFn)
      = c7CombineFn.extractOutput
          (c7Adapter.raw_state.get_state (c7Adapter.getIds sampleW).headI
            (.combiningValueStateTag "x" c7CombineFn)) :=
  ⟨by decide,
   (C7_adapter_combining_get c7Adapter sampleW "x" c7CombineFn).1 (by decide)⟩

/-- Counterexample for C7 as stated: with one internal id holding the raw
value `105`, the adapter returns `extract_output(105) = 205`, not the raw
value unchanged. -/
theorem C7_single_id_not_raw_counterexample :
    c7Adapter.get_state sampleW c7Tag = .int 205 ∧
    c7Adapter.raw_state.get_state 1 c7Tag = .int 105 ∧
    PyVal.int 205 ≠ PyVal.int 105 := by
  refine ⟨by decide, by decide, by decide⟩

/-- C8 (amended): reading a never-written cell of the in-memory backend is
total and returns the `defaultdict(list)` default: the empty list for a
`List` tag, the empty list (not `None`) for a `Value` tag, and the
combiner's extraction of the empty accumulator for a `Combining` tag. -/
theorem C8_absent_cell_reads (s : InMemoryUnmergedState IntervalWindow PyVal)
    (w : IntervalWindow) (name : String) (fn : CombineFn)
    (h : alGet name ((alGet w s.state).getD []) = Option.none) :
    s.get_state w (.valueStateTag name) = .list [] ∧
    s.get_state w (.listStateTag name) = .list [] ∧
    s.get_state w (.combiningValueStateTag name fn)
      = fn.extractOutput fn.createAccumulator := by
  have hcell : s.cellOf w name = .list [] := by
    simp [InMemoryUnmergedState.cellOf, h]
  refine ⟨?_, ?_, ?_⟩ <;>
    simp [InMemoryUnmergedState.get_state, hcell, StateTag.tagName, CombineFn.applyFn,
      PyVal.elems]

/-- Witness for C8 on the empty backend. -/
theorem C8_absent_cell_reads_witness :
    (({} : InMemoryUnmergedState IntervalWindow PyVal).get_state sampleW
        (.valueStateTag "x")) = .list [] ∧
    (({} : InMemoryUnmergedState IntervalWindow PyVal).get_state sampleW
        (.listStateTag "x")) = .list [] ∧
    (({} : InMemoryUnmergedState IntervalWindow PyVal).get_state sampleW
        (.combiningValueStateTag "x" CountCombineFn))
      = CountCombineFn.extractOutput CountCombineFn.createAccumulator :=
  C8_absent_cell_reads {} sampleW "x" CountCombineFn (by decide)

/-- Counterexample for C8 as stated: the absent `Value` cell reads as the
empty Python list, which is not `None`. -/
theorem C8_value_absent_not_none_counterexample :
    (({} : InMemoryUnmergedState IntervalWindow PyVal).get_state sampleW
        (.valueStateTag "x")) = .list [] ∧
    PyVal.list [] ≠ PyVal.none := by
  refine ⟨by decide, by decide⟩

/-- C4 (amended): a timer id unknown to the merge adapter makes
`process_timer` propagate the adapter's `ValueError` (raised when the
returned generator is consumed); no pane is yielded. -/
theorem C4_unknown_timer_raises (d : GeneralTriggerDriver) (tid : ℕ) (ts : ℤ)
    (raw : RawState)
    (h : ∀ e ∈ (MergeableStateAdapter.init raw).window_ids, tid ∉ e.2) :
    d.process_timer tid ts raw = .error ("No window for " ++ toString tid) := by
  have hfind : (MergeableStateAdapter.init raw).window_ids.find?
      (fun entry => tid ∈ entry.2) = Option.none := by
    rw [List.find?_eq_none]
    intro e he
    simpa using h e he
  simp [GeneralTriggerDriver.process_timer, MergeableStateAdapter.get_window, hfind]

/-- Witness for C4 on the empty state. -/
theorem C4_unknown_timer_raises_witness :
    awd.process_timer 5 0 emptyRaw = .error ("No window for " ++ toString 5) :=
  C4_unknown_timer_raises awd 5 0 emptyRaw (by decide)

/-- Counterexample for C4 as stated: the claim says the timer is silently
dropped with no exception, but the concrete call returns the propagated
`ValueError`, not an empty yield. -/
theorem C4_unknown_timer_counterexample :
    awd.process_timer 5 0 emptyRaw = .error ("No window for " ++ toString 5) ∧
    ∀ s' : RawState, Except.error ("No window for " ++ toString 5)
      ≠ (Except.ok ([], s') : Except String (List Pane × RawState)) := by
  exact ⟨by decide, fun s' h => Except.noConfusion h⟩

end Dataflow
